import Mathlib

/-!
Verification of the KuKu-FM episode-continuity pipeline.

The Python sources are shallowly embedded:
* `src/json_parse.py` / the JSON handling of `src/story_generator.py`:
  `JValue` models the JSON values the repository exchanges (Python's
  `json.loads` / `json.dumps` restricted to the fragment the repository
  uses: objects, arrays, strings with the standard one-character escapes,
  integers, booleans, null; no floats and no \u escapes, which never occur
  in the repository's records).  `safe_json_parse` models the two-stage
  parse-repair-parse policy, with `repairBackslashes` modelling the regex
  substitution.
* `src/outlines.py`: `generate_outlines`, `improve_outline`,
  `flow_maintainer`, with the OpenAI chat call abstracted as an oracle
  function receiving the structured content of the prompt, and the
  outlines.json file content passed in and returned explicitly.
* `src/story_generator.py`: `summarize_with_openai`, `generate_episode`
  and `create_story`, with the gateway abstracted as an oracle and the
  per-episode files collected in a persisted list.
-/

/-- JSON values as produced by Python's `json.loads` on the repository's
data (objects are association lists in document order; Python keeps the
last binding of a duplicated key, modelled by `lookupLast`). -/
inductive JValue where
  | null : JValue
  | bool (b : Bool) : JValue
  | num (i : Int) : JValue
  | str (s : String) : JValue
  | arr (xs : List JValue) : JValue
  | obj (kvs : List (String × JValue)) : JValue

/-- Whitespace accepted between JSON tokens (as in Python's json). -/
def isJsonWs (c : Char) : Bool :=
  c = ' ' || c = '\t' || c = '\n' || c = '\r'

def skipWs : List Char → List Char
  | [] => []
  | c :: r => if isJsonWs c then skipWs r else c :: r

/-- One-character string escapes recognized by the JSON decoder. -/
def unescChar (c : Char) : Option Char :=
  if c = '"' then some '"'
  else if c = '\\' then some '\\'
  else if c = '/' then some '/'
  else if c = 'n' then some '\n'
  else if c = 'r' then some '\r'
  else if c = 't' then some '\t'
  else if c = 'b' then some (Char.ofNat 8)
  else if c = 'f' then some (Char.ofNat 12)
  else none

/-- Parse the body of a JSON string (after the opening quote), returning
the decoded characters and the input after the closing quote. -/
def parseStrBody : List Char → Option (List Char × List Char)
  | [] => none
  | c :: r =>
    if c = '"' then some ([], r)
    else if c = '\\' then
      match r with
      | [] => none
      | e :: r2 =>
        match unescChar e with
        | none => none
        | some d =>
          match parseStrBody r2 with
          | none => none
          | some (cs, r3) => some (d :: cs, r3)
    else
      match parseStrBody r with
      | none => none
      | some (cs, r3) => some (c :: cs, r3)

/-- Consume a run of decimal digits, folding them onto an accumulator. -/
def parseDigits : List Char → Nat → Nat × List Char
  | [], acc => (acc, [])
  | c :: r, acc =>
    if c.isDigit then parseDigits r (acc * 10 + (c.toNat - 48))
    else (acc, c :: r)

/-- Parse a (possibly negative) integer literal.  The repository's
records carry only integers; floats/exponents are outside the model, and
leading zeros (which Python rejects) are accepted — a harmless superset
on the inputs the claims concern. -/
def parseNumber : List Char → Option (Int × List Char)
  | [] => none
  | c :: r =>
    if c = '-' then
      match r with
      | [] => none
      | d :: r2 =>
        if d.isDigit then
          let p := parseDigits r2 (d.toNat - 48)
          some (-(p.1 : Int), p.2)
        else none
    else if c.isDigit then
      let p := parseDigits r (c.toNat - 48)
      some ((p.1 : Int), p.2)
    else none

/-- Match an exact sequence of characters, returning the remainder. -/
def stripChars : List Char → List Char → Option (List Char)
  | [], s => some s
  | c :: cs, d :: s => if c = d then stripChars cs s else none
  | _ :: _, [] => none

mutual

/-- Fueled recursive-descent JSON value parser (models `json.loads`;
fuel only bounds nesting and is chosen large enough at the top level). -/
def parseVal : Nat → List Char → Option (JValue × List Char)
  | 0, _ => none
  | n + 1, s =>
    match skipWs s with
    | [] => none
    | c :: r =>
      if c = '{' then
        match skipWs r with
        | [] => none
        | d :: r2 =>
          if d = '}' then some (.obj [], r2)
          else
            match parseMembers n (d :: r2) with
            | some (kvs, r3) => some (.obj kvs, r3)
            | none => none
      else if c = '[' then
        match skipWs r with
        | [] => none
        | d :: r2 =>
          if d = ']' then some (.arr [], r2)
          else
            match parseElems n (d :: r2) with
            | some (vs, r3) => some (.arr vs, r3)
            | none => none
      else if c = '"' then
        match parseStrBody r with
        | some (cs, r2) => some (.str (String.mk cs), r2)
        | none => none
      else if c = 'n' then
        (stripChars ['u', 'l', 'l'] r).map (fun r2 => (.null, r2))
      else if c = 't' then
        (stripChars ['r', 'u', 'e'] r).map (fun r2 => (.bool true, r2))
      else if c = 'f' then
        (stripChars ['a', 'l', 's', 'e'] r).map (fun r2 => (.bool false, r2))
      else
        match parseNumber (c :: r) with
        | some p => some (.num p.1, p.2)
        | none => none

/-- Parse a nonempty comma-separated element list up to and including `]`. -/
def parseElems : Nat → List Char → Option (List JValue × List Char)
  | 0, _ => none
  | n + 1, s =>
    match parseVal n s with
    | none => none
    | some (v, r) =>
      match skipWs r with
      | [] => none
      | d :: r2 =>
        if d = ',' then
          match parseElems n r2 with
          | some (vs, r3) => some (v :: vs, r3)
          | none => none
        else if d = ']' then some ([v], r2)
        else none

/-- Parse a nonempty member list up to and including `}`. -/
def parseMembers : Nat → List Char → Option (List (String × JValue) × List Char)
  | 0, _ => none
  | n + 1, s =>
    match skipWs s with
    | [] => none
    | c :: r =>
      if c = '"' then
        match parseStrBody r with
        | none => none
        | some (k, r2) =>
          match skipWs r2 with
          | [] => none
          | d :: r3 =>
            if d = ':' then
              match parseVal n r3 with
              | none => none
              | some (v, r4) =>
                match skipWs r4 with
                | [] => none
                | e :: r5 =>
                  if e = ',' then
                    match parseMembers n r5 with
                    | some (kvs, r6) => some ((String.mk k, v) :: kvs, r6)
                    | none => none
                  else if e = '}' then some ([(String.mk k, v)], r5)
                  else none
            else none
      else none

end

/-- `json.loads`: parse one JSON document, allowing trailing whitespace
only.  The fuel `2 * length + 2` dominates the parser's fuel use, which
consumes at least one character every second step. -/
def jsonDecode (s : List Char) : Option JValue :=
  match parseVal (2 * s.length + 2) s with
  | some (v, r) => if skipWs r = [] then some v else none
  | none => none

/-- Decimal digit characters (used by the integer encoder). -/
def digitCh : Nat → Char
  | 0 => '0' | 1 => '1' | 2 => '2' | 3 => '3' | 4 => '4'
  | 5 => '5' | 6 => '6' | 7 => '7' | 8 => '8' | _ => '9'

/-- Decimal digits, most significant first; fueled so that it reduces
(the fuel `n + 1` always suffices since `n / 10 < n`). -/
def natDigitsF : Nat → Nat → List Char
  | 0, _ => []
  | fuel + 1, n =>
    if n < 10 then [digitCh n]
    else natDigitsF fuel (n / 10) ++ [digitCh (n % 10)]

/-- Decimal digits of a natural number, most significant first. -/
def natDigits (n : Nat) : List Char :=
  natDigitsF (n + 1) n

/-- Integer literal as emitted by `json.dumps`. -/
def encodeInt (i : Int) : List Char :=
  if i < 0 then '-' :: natDigits i.natAbs else natDigits i.toNat

/-- String-character escaping as emitted by `json.dumps` (characters that
need no escape are emitted raw). -/
def escapeChar (c : Char) : List Char :=
  if c = '"' then ['\\', '"']
  else if c = '\\' then ['\\', '\\']
  else if c = '\n' then ['\\', 'n']
  else if c = '\r' then ['\\', 'r']
  else if c = '\t' then ['\\', 't']
  else if c = Char.ofNat 8 then ['\\', 'b']
  else if c = Char.ofNat 12 then ['\\', 'f']
  else [c]

def escList : List Char → List Char
  | [] => []
  | c :: cs => escapeChar c ++ escList cs

/-- A JSON string literal, quotes included. -/
def encodeStr (s : String) : List Char :=
  '"' :: (escList s.data ++ ['"'])

mutual

/-- The three JSON keyword literals. -/
def kwNull : List Char := "null".data

def kwTrue : List Char := "true".data

def kwFalse : List Char := "false".data

/-- `json.dumps` (compact separators) on the modelled fragment. -/
def encodeVal : JValue → List Char
  | .null => kwNull
  | .bool true => kwTrue
  | .bool false => kwFalse
  | .num i => encodeInt i
  | .str s => encodeStr s
  | .arr [] => ['[', ']']
  | .arr (x :: xs) => '[' :: (encodeVal x ++ encodeElemsTail xs)
  | .obj [] => ['{', '}']
  | .obj (kv :: kvs) => '{' :: (encodeMember kv ++ encodeMembersTail kvs)

def encodeElemsTail : List JValue → List Char
  | [] => [']']
  | x :: xs => ',' :: (encodeVal x ++ encodeElemsTail xs)

def encodeMember : String × JValue → List Char
  | (k, v) => encodeStr k ++ (':' :: encodeVal v)

def encodeMembersTail : List (String × JValue) → List Char
  | [] => ['}']
  | kv :: kvs => ',' :: (encodeMember kv ++ encodeMembersTail kvs)

end

/-- True when the next character is one of the escape characters the
repair regex recognizes after a backslash: the class `[\\nrt"]`, i.e. a
backslash or the letters n, r, t or a double quote. -/
def escFollows : List Char → Bool
  | [] => false
  | d :: _ => d = '\\' || d = 'n' || d = 'r' || d = 't' || d = '"'

/-- `re.sub(r'(?<!\\)\\(?![\\nrt"])', r'\\\\', text)` from
`safe_json_parse`: double every backslash that is not preceded by a
backslash (in the original text — `re.sub` scans the original) and not
followed by one of `\\`, `n`, `r`, `t`, `"`.  `prev` is the previous
character of the original text. -/
def repairAux : Option Char → List Char → List Char
  | _, [] => []
  | prev, c :: rest =>
    if c = '\\' && prev != some '\\' && !(escFollows rest) then
      '\\' :: '\\' :: repairAux (some '\\') rest
    else c :: repairAux (some c) rest

def repairBackslashes (s : List Char) : List Char :=
  repairAux none s

/-- `safe_json_parse` from `src/json_parse.py` (the copy in
`src/story_generator.py` is textually identical): direct decode first; on
failure one backslash-repair pass and a retry; if that also fails the
call fails carrying the first 500 characters of the text that failed
(the repaired text), as printed for diagnosis before the error is
re-raised. -/
def safe_json_parse (response_text : List Char) : Except (List Char) JValue :=
  match jsonDecode response_text with
  | some v => Except.ok v
  | none =>
    let fixed := repairBackslashes response_text
    match jsonDecode fixed with
    | some v => Except.ok v
    | none => Except.error (fixed.take 500)

/-- Whether the next character would extend a digit run. -/
def headDigit : List Char → Bool
  | [] => false
  | c :: _ => c.isDigit

/-- The numeric value a digit run denotes. -/
def digitsVal (ds : List Char) : Nat :=
  List.foldl (fun a c => a * 10 + (c.toNat - 48)) 0 ds

/-! ## Models of `src/outlines.py` -/

/-- Characters of a story record field access key. -/
def natStr (n : Nat) : String := String.mk (natDigits n)

def upToLastRBrace (t : List Char) : List Char :=
  (t.reverse.dropWhile (fun c => c != '}')).reverse

/-- The `re.search` extraction in `generate_outlines` (pattern
`\{.*\}` with DOTALL, leftmost-longest): the leftmost `{` that is
followed by some `}`, through the last `}` of the text. -/
def extractBraces : List Char → Option (List Char)
  | [] => none
  | c :: t =>
    if c = '{' then
      if t.contains '}' then some ('{' :: upToLastRBrace t)
      else extractBraces t
    else extractBraces t

/-- The fallback map `generate_outlines` builds when parsing fails:
every episode index 1..N (stringified) maps to the fixed placeholder. -/
def fallback_outlines (total_episodes : Nat) : JValue :=
  .obj ((List.range' 1 total_episodes).map (fun ep =>
    (natStr ep, .str (String.mk ("Outline for episode ".data
      ++ natDigits ep ++ " could not be generated. Please try again.".data)))))

/-- `generate_outlines` from `src/outlines.py`, the chat response passed
in as `response`: extract the brace span if present, parse with
`safe_json_parse`, and on any parse failure return the placeholder map
(never raising).  A successfully parsed value is returned as-is, without
validation against the requested episode count. -/
def generate_outlines (total_episodes : Nat) (response : List Char) : JValue :=
  let result := (extractBraces response).getD response
  match safe_json_parse result with
  | .ok v => v
  | .error _ => fallback_outlines total_episodes

/-- Structured content of the `improve_outline` prompt: outlines of
episodes 1..k-1 (the continuity context), the original outline of
episode k, and the user feedback. -/
structure ImproveRequest where
  episode_num : Nat
  previous_outlines : List (Nat × List Char)
  original : List Char
  feedback : List Char

/-- `improve_outline` from `src/outlines.py`.  The outlines.json content
is the total map `outlines` on indices 1..N; the chat call is the oracle
`orc`.  Returns the improved text and the saved map, which overwrites
exactly the entry `episode_num`. -/
def improve_outline (orc : ImproveRequest → List Char)
    (outlines : Nat → List Char) (episode_num : Nat) (feedback : List Char) :
    List Char × (Nat → List Char) :=
  let req : ImproveRequest :=
    { episode_num := episode_num
      previous_outlines :=
        (List.range' 1 (episode_num - 1)).map (fun ep => (ep, outlines ep))
      original := outlines episode_num
      feedback := feedback }
  let improved := orc req
  (improved, fun ep => if ep = episode_num then improved else outlines ep)

/-- Structured content of the per-episode `flow_maintainer` prompt. -/
structure FlowRequest where
  ep : Nat
  previous_outlines : List (Nat × List Char)
  current : List Char
  modified_episode : Nat
  total_episodes : Nat

/-- The `for ep in range(modified_episode + 1, total_episodes + 1)` loop
of `flow_maintainer`: each step builds its prompt from all outlines
1..ep-1 as they stand (including revisions from earlier steps of this
same call) plus episode ep's current text, and overwrites entry ep with
the oracle's response. -/
def flowLoop (orc : FlowRequest → List Char) (modified total : Nat) :
    List Nat → (Nat → List Char) → (Nat → List Char)
  | [], outlines => outlines
  | ep :: rest, outlines =>
    let req : FlowRequest :=
      { ep := ep
        previous_outlines :=
          (List.range' 1 (ep - 1)).map (fun j => (j, outlines j))
        current := outlines ep
        modified_episode := modified
        total_episodes := total }
    let updated := orc req
    flowLoop orc modified total rest (fun j => if j = ep then updated else outlines j)

/-- `flow_maintainer` from `src/outlines.py`: returns the map unchanged
when the modified episode is the last (or beyond); otherwise revises
episodes modified+1..total in strictly increasing order. -/
def flow_maintainer (orc : FlowRequest → List Char)
    (total_episodes modified_episode : Nat)
    (outlines : Nat → List Char) : Nat → List Char :=
  if modified_episode ≥ total_episodes then outlines
  else
    flowLoop orc modified_episode total_episodes
      (List.range' (modified_episode + 1) (total_episodes - modified_episode))
      outlines

/-! ## Models of `src/story_generator.py` -/

/-- Association lookup that keeps the LAST binding of a duplicated key,
as a Python dict built by `json.loads` would. -/
def lookupLast : List (String × JValue) → String → Option JValue
  | [], _ => none
  | (k, w) :: rest, key =>
    match lookupLast rest key with
    | some v => some v
    | none => if k == key then some w else none

/-- Python `d[k]` on a parsed record (an object); `none` models the
KeyError/TypeError cases. -/
def JValue.getField (v : JValue) (key : String) : Option JValue :=
  match v with
  | .obj kvs => lookupLast kvs key
  | _ => none

def setPairs : List (String × JValue) → String → JValue → List (String × JValue)
  | [], key, v => [(key, v)]
  | (k, w) :: rest, key, v =>
    if k == key then (key, v) :: rest else (k, w) :: setPairs rest key v

/-- Python `d[k] = v` on a record: replace the binding in place, or
append a new one. -/
def JValue.setField (j : JValue) (key : String) (v : JValue) : JValue :=
  match j with
  | .obj kvs => .obj (setPairs kvs key v)
  | _ => j

def asString : JValue → Option (List Char)
  | .str s => some s.data
  | _ => none

/-- Record field names used by `create_story`. -/
def bodyKey : String := "body"

def charsKey : String := "current_characters"

def endedAtKey : String := "ended_at"

def summaryKey : String := "summary_till_now"

/-- Structured content of the summarization prompt: the episode text
truncated to 3000 characters, and the previous summary when the
with-context prompt is selected. -/
structure SummRequest where
  context : Option (List Char)
  text : List Char

/-- `summarize_with_openai` from `src/story_generator.py`: the prompt
with the previous summary as context is selected only when
`previous_summary` is truthy (not None and not empty); the chat call is
the oracle `orc`. -/
def summarize_with_openai (orc : SummRequest → List Char)
    (text : List Char) (previous_summary : Option (List Char)) : List Char :=
  let ctx := match previous_summary with
    | some p => if p = [] then none else some p
    | none => none
  orc { context := ctx, text := text.take 3000 }

/-- Story-level generation settings threaded into every prompt. -/
structure StoryCfg where
  tone : List Char
  trope : Option (List Char)
  style : List Char

/-- The arguments of one `generate_episode` call (the prompt bundle is a
function of exactly these fields). -/
structure EpisodeRequest where
  episode_number : Nat
  total_episodes : Nat
  summary_context : Option (List Char)
  previous_characters : Option JValue
  required_characters : Option JValue
  ended_at : Option JValue
  cfg : StoryCfg

/-- The failure taxonomy of a `create_story` run: a gateway/transport
failure surfaced verbatim, a parse failure after the repair pass
carrying the truncated text, or a Python KeyError/TypeError on a record
field access. -/
inductive RunError where
  | transport (e : List Char)
  | malformed (payload : List Char)
  | keyError (field : String)
  | typeError (field : String)
deriving DecidableEq

/-- `generate_episode` (lines 177-188 of `src/story_generator.py`): one
gateway call for the given request, then `safe_json_parse` on the raw
response text.  The gateway oracle `gw` receives the full request; its
failure is the provider/transport error, propagated unmodified. -/
def generate_episode (gw : EpisodeRequest → Except (List Char) (List Char))
    (req : EpisodeRequest) : Except RunError JValue :=
  match gw req with
  | .error e => .error (.transport e)
  | .ok raw =>
    match safe_json_parse raw with
    | .ok v => .ok v
    | .error t => .error (.malformed t)

/-- Outcome of a `create_story` run: `err` is the exception that aborted
the run (if any), `persisted` the episode files written (index and
content, in order), and `total_summary` / `last_ended_at` the loop
variables at exit. -/
structure RunResult where
  err : Option RunError
  persisted : List (Nat × JValue)
  total_summary : List Char
  last_ended_at : Option JValue

/-- The `for episode in range(2, no_of_episodes + 1)` loop of
`create_story` (lines 237-253).  Per iteration, Python evaluates
`story["current_characters"]` while building the call (a KeyError there
aborts before the gateway call), runs `generate_episode`, reads
`story["body"]` for the summarizer, appends the fresh summary — built
WITHOUT the previous summary as context — to the running summary after a
newline, stores it under `summary_till_now`, replaces `last_ended_at`
with `story.get("ended_at", None)`, and persists the record. -/
def create_story_loop (gw : EpisodeRequest → Except (List Char) (List Char))
    (orc : SummRequest → List Char) (cfg : StoryCfg) (no_of_episodes : Nat) :
    List Nat → JValue → List Char → Option JValue → List (Nat × JValue) → RunResult
  | [], _, ts, lea, per => ⟨none, per, ts, lea⟩
  | ep :: rest, story, ts, lea, per =>
    match story.getField charsKey with
    | none => ⟨some (.keyError charsKey), per, ts, lea⟩
    | some chars =>
      match generate_episode gw
          { episode_number := ep
            total_episodes := no_of_episodes
            summary_context := some ts
            previous_characters := some chars
            required_characters := none
            ended_at := lea
            cfg := cfg } with
      | .error e => ⟨some e, per, ts, lea⟩
      | .ok story2 =>
        match story2.getField bodyKey with
        | none => ⟨some (.keyError bodyKey), per, ts, lea⟩
        | some bodyv =>
          match asString bodyv with
          | none => ⟨some (.typeError bodyKey), per, ts, lea⟩
          | some body =>
            let ts2 := ts ++ ('\n' :: summarize_with_openai orc body none)
            let story3 := story2.setField summaryKey (.str (String.mk ts2))
            let lea2 := story2.getField endedAtKey
            create_story_loop gw orc cfg no_of_episodes rest story3 ts2 lea2
              (per ++ [(ep, story3)])

/-- `create_story` from `src/story_generator.py` (lines 199-253), with
file writes collected in `RunResult.persisted` (info.json, written
unconditionally before any generation, is not an episode record and is
not tracked).  Episode 1 is generated with the initial characters as
required characters and no summary context; its summary is the
no-context summary of its body; then the loop covers episodes 2..N. -/
def create_story (gw : EpisodeRequest → Except (List Char) (List Char))
    (orc : SummRequest → List Char) (cfg : StoryCfg)
    (initial_characters : JValue) (no_of_episodes : Nat) : RunResult :=
  match generate_episode gw
      { episode_number := 1
        total_episodes := no_of_episodes
        summary_context := none
        previous_characters := none
        required_characters := some initial_characters
        ended_at := none
        cfg := cfg } with
  | .error e => ⟨some e, [], [], none⟩
  | .ok story =>
    match story.getField bodyKey with
    | none => ⟨some (.keyError bodyKey), [], [], none⟩
    | some bodyv =>
      match asString bodyv with
      | none => ⟨some (.typeError bodyKey), [], [], none⟩
      | some body =>
        let ts := summarize_with_openai orc body none
        let story2 := story.setField summaryKey (.str (String.mk ts))
        let lea := story.getField endedAtKey
        create_story_loop gw orc cfg no_of_episodes
          (List.range' 2 (no_of_episodes - 1)) story2 ts lea [(1, story2)]

/-- A record the episode loop can consume: `body` is a string and
`current_characters` is present. -/
def WfRec (v : JValue) : Prop :=
  (∃ s, v.getField bodyKey = some (.str s)) ∧
    (v.getField charsKey).isSome = true

/-- The body text of a record (defaulting to empty; only used under
`WfRec`). -/
def bodyOf (v : JValue) : List Char :=
  ((v.getField bodyKey).bind asString).getD []

/-- Reference description of the running summary built by the episode
loop over indices `l` when episode `j` parses to `R j`: each step
appends a newline and the summary of that episode's body, generated
WITHOUT the previous summary as context. -/
def runSummary (orc : SummRequest → List Char) (R : Nat → JValue) :
    List Nat → List Char → List Char
  | [], ts => ts
  | j :: rest, ts =>
    runSummary orc R rest
      (ts ++ ('\n' :: summarize_with_openai orc (bodyOf (R j)) none))

/-- Reference description of the records persisted by the episode loop:
episode `j`'s record is `R j` with `summary_till_now` set to the running
summary through `j`. -/
def runRecords (orc : SummRequest → List Char) (R : Nat → JValue) :
    List Nat → List Char → List (Nat × JValue)
  | [], _ => []
  | j :: rest, ts =>
    let ts2 := ts ++ ('\n' :: summarize_with_openai orc (bodyOf (R j)) none)
    (j, (R j).setField summaryKey (.str (String.mk ts2)))
      :: runRecords orc R rest ts2

/-- Reference description of the ending anchor after the episode loop:
each step replaces it wholesale by `R j`'s `ended_at` field (`none` when
the field is absent). -/
def runLea (R : Nat → JValue) : List Nat → Option JValue → Option JValue
  | [], lea => lea
  | j :: rest, _ => runLea R rest ((R j).getField endedAtKey)

/-! ## `finalize_story` (outline-driven mode) -/

/-- Modelled from the spec: `finalize_story` is imported by
`src/main.py` from `story_generator` but its definition is missing from
the sources.  Per spec §4.3, in outline-driven mode the prompt bundle
for episode k contains the episode index, the totals and settings, the
outline text for episode k, and the continuity cursor. -/
structure OutlineEpisodeRequest where
  episode_number : Nat
  total_episodes : Nat
  outline : List Char
  summary_context : Option (List Char)
  ended_at : Option JValue
  previous_characters : Option JValue
  cfg : StoryCfg

/-- Modelled from the spec: the prompt bundle `finalize_story` issues
for episode `ep` — it includes the outline text for `ep`. -/
def finalize_request (cfg : StoryCfg) (outlines : Nat → List Char)
    (total ep : Nat) (ts : Option (List Char)) (lea : Option JValue)
    (chars : Option JValue) : OutlineEpisodeRequest :=
  { episode_number := ep
    total_episodes := total
    outline := outlines ep
    summary_context := ts
    ended_at := lea
    previous_characters := chars
    cfg := cfg }

/-- Modelled from the spec (§4.3): the episode loop of `finalize_story`.
Each step calls the gateway on the outline-driven prompt bundle, parses
the response, merges per the spec's merge step (summary with the prior
running summary passed as context for k ≥ 2; the ending anchor replaced
only by a present non-empty field, never nulled), and persists. -/
def finalize_loop (gw : OutlineEpisodeRequest → Except (List Char) (List Char))
    (orc : SummRequest → List Char) (cfg : StoryCfg)
    (outlines : Nat → List Char) (total : Nat) :
    List Nat → List Char → Option JValue → Option JValue →
      List (Nat × JValue) → RunResult
  | [], ts, lea, _, per => ⟨none, per, ts, lea⟩
  | ep :: rest, ts, lea, chars, per =>
    match gw (finalize_request cfg outlines total ep
        (if ep = 1 then none else some ts) lea chars) with
    | .error e => ⟨some (.transport e), per, ts, lea⟩
    | .ok raw =>
      match safe_json_parse raw with
      | .error t => ⟨some (.malformed t), per, ts, lea⟩
      | .ok rec =>
        match rec.getField bodyKey with
        | none => ⟨some (.keyError bodyKey), per, ts, lea⟩
        | some bodyv =>
          match asString bodyv with
          | none => ⟨some (.typeError bodyKey), per, ts, lea⟩
          | some body =>
            let ts2 := if ep = 1 then summarize_with_openai orc body none
              else summarize_with_openai orc body (some ts)
            let lea2 := match rec.getField endedAtKey with
              | some (.str s) => if s.data = [] then lea else some (.str s)
              | some v => some v
              | none => lea
            let chars2 := rec.getField charsKey
            let rec2 := rec.setField summaryKey (.str (String.mk ts2))
            finalize_loop gw orc cfg outlines total rest ts2 lea2 chars2
              (per ++ [(ep, rec2)])

/-- Modelled from the spec: `finalize_story` expands the finished
outlines into full episode records by running the episode state machine
in outline-driven mode over indices 1..total. -/
def finalize_story (gw : OutlineEpisodeRequest → Except (List Char) (List Char))
    (orc : SummRequest → List Char) (cfg : StoryCfg)
    (outlines : Nat → List Char) (total : Nat) : RunResult :=
  finalize_loop gw orc cfg outlines total (List.range' 1 total) [] none none []

/-! ## Concrete fixtures for witnesses and counterexamples -/

/-- The keys of a parsed JSON object (empty for non-objects). -/
def objKeys : JValue → List String
  | .obj kvs => kvs.map Prod.fst
  | _ => []

def cfgW : StoryCfg :=
  { tone := "Comedic".data, trope := none, style := "Third Person".data }

def charsW : JValue := .arr [.str "tom", .str "jerry"]

/-- A discriminating summarizer oracle: reveals whether the prompt
carried the previous summary as context. -/
def orcW : SummRequest → List Char :=
  fun req => if req.context.isSome then "CTX".data else "NOCTX".data

/-- A well-formed episode record response (with `ended_at`). -/
def epRecordText : List Char :=
  "\x7b\"title\": \"T\", \"body\": \"B\", \"killed_characters\": [], \"current_characters\": [\"tom\"], \"ended_at\": \"E\"\x7d".data

def epRecord : JValue :=
  .obj [("title", .str "T"), ("body", .str "B"),
    ("killed_characters", .arr []), ("current_characters", .arr [.str "tom"]),
    ("ended_at", .str "E")]

/-- A record missing `ended_at` (still well-formed for the loop). -/
def epRecordNoEndText : List Char :=
  "\x7b\"title\": \"T2\", \"body\": \"B2\", \"current_characters\": [\"tom\"]\x7d".data

def epRecordNoEnd : JValue :=
  .obj [("title", .str "T2"), ("body", .str "B2"),
    ("current_characters", .arr [.str "tom"])]

/-- A record missing `current_characters` (but with a body). -/
def epRecordNoCharsText : List Char :=
  "\x7b\"title\": \"T3\", \"body\": \"B3\", \"ended_at\": \"E3\"\x7d".data

def epRecordNoChars : JValue :=
  .obj [("title", .str "T3"), ("body", .str "B3"), ("ended_at", .str "E3")]

/-- Gateway returning the same well-formed record for every episode. -/
def gwAllOk : EpisodeRequest → Except (List Char) (List Char) :=
  fun _ => .ok epRecordText

/-- Gateway whose episode-2 record lacks `ended_at`. -/
def gwNoEnd2 : EpisodeRequest → Except (List Char) (List Char) :=
  fun req => if req.episode_number = 2 then .ok epRecordNoEndText
    else .ok epRecordText

/-- Gateway failing (transport) at episode 3. -/
def gwFail3 : EpisodeRequest → Except (List Char) (List Char) :=
  fun req => if req.episode_number = 3 then .error ("boom".data)
    else .ok epRecordText

/-- Gateway whose episode-2 record lacks `current_characters`. -/
def gwNoChars2 : EpisodeRequest → Except (List Char) (List Char) :=
  fun req => if req.episode_number = 2 then .ok epRecordNoCharsText
    else .ok epRecordText

/-- Parsed records produced by `gwNoEnd2`. -/
def recNoEnd2 : Nat → JValue :=
  fun j => if j = 2 then epRecordNoEnd else epRecord

/-- Parsed records produced by `gwNoChars2`. -/
def recNoChars2 : Nat → JValue :=
  fun j => if j = 2 then epRecordNoChars else epRecord

/-- Outline-driven gateway fixture. -/
def gwOutlineOk : OutlineEpisodeRequest → Except (List Char) (List Char) :=
  fun _ => .ok epRecordText

/-- Flow-maintenance oracle fixture: marks each revision with its index. -/
def orcFlow : FlowRequest → List Char :=
  fun req => "rev".data ++ natDigits req.ep

/-- Outline-improvement oracle fixture. -/
def orcImprove : ImproveRequest → List Char :=
  fun req => "improved".data ++ natDigits req.episode_num

/-- A five-entry outline map fixture. -/
def outlines5 : Nat → List Char :=
  fun j => "orig".data ++ natDigits j

/-- An otherwise-valid JSON object with one stray unescaped backslash
inside a string value. -/
def strayBackslashText : List Char :=
  "\x7b\"a\": \"x\\yz\"\x7d".data

/-- A structurally invalid text (unbalanced braces). -/
def unbalancedText : List Char := "\x7b\"a\": 1".data

/-- A syntactically valid outline response containing only one episode. -/
def partialOutlineText : List Char := "\x7b\"1\": \"a\"\x7d".data

/-- A response with no JSON object at all. -/
def garbageOutlineText : List Char := "no json here".data

/-! Round-trip infrastructure: the parser recovers the encoder's output. -/

theorem char_ne_of_digit {c d : Char} (h : c.isDigit = true)
    (hd : d.isDigit = false) : c ≠ d := by
  intro e; subst e; rw [h] at hd; cases hd

theorem skipWs_not_ws {c : Char} (r : List Char) (h : isJsonWs c = false) :
    skipWs (c :: r) = c :: r := by
  simp [skipWs, h]

theorem isJsonWs_of_digit {c : Char} (h : c.isDigit = true) :
    isJsonWs c = false := by
  have h1 : c ≠ ' ' := char_ne_of_digit h (by decide)
  have h2 : c ≠ '\t' := char_ne_of_digit h (by decide)
  have h3 : c ≠ '\n' := char_ne_of_digit h (by decide)
  have h4 : c ≠ '\r' := char_ne_of_digit h (by decide)
  simp [isJsonWs, h1, h2, h3, h4]

theorem digitCh_isDigit {d : Nat} (h : d < 10) : (digitCh d).isDigit = true := by
  interval_cases d <;> decide

theorem digitCh_val {d : Nat} (h : d < 10) : (digitCh d).toNat - 48 = d := by
  interval_cases d <;> decide

theorem natDigitsF_digits : ∀ fuel n, n < fuel →
    ∀ c ∈ natDigitsF fuel n, c.isDigit = true := by
  intro fuel
  induction fuel with
  | zero => intro n h; omega
  | succ f ih =>
    intro n h c hc
    by_cases h10 : n < 10
    · simp [natDigitsF, h10] at hc
      subst hc; exact digitCh_isDigit h10
    · simp [natDigitsF, h10] at hc
      rcases hc with hc | hc
      · have hdiv : n / 10 < f := by
          have := Nat.div_lt_self (by omega : 0 < n) (by omega : 1 < 10)
          omega
        exact ih (n / 10) hdiv c hc
      · subst hc; exact digitCh_isDigit (Nat.mod_lt n (by omega))

theorem natDigitsF_ne_nil : ∀ fuel n, n < fuel → natDigitsF fuel n ≠ [] := by
  intro fuel
  induction fuel with
  | zero => intro n h; omega
  | succ f ih =>
    intro n h
    by_cases h10 : n < 10 <;> simp [natDigitsF, h10]

theorem natDigitsF_val : ∀ fuel n, n < fuel →
    digitsVal (natDigitsF fuel n) = n := by
  intro fuel
  induction fuel with
  | zero => intro n h; omega
  | succ f ih =>
    intro n h
    by_cases h10 : n < 10
    · simp [natDigitsF, h10, digitsVal, digitCh_val h10]
    · have hdiv : n / 10 < f := by
        have := Nat.div_lt_self (by omega : 0 < n) (by omega : 1 < 10)
        omega
      have hmod : n % 10 < 10 := Nat.mod_lt n (by omega)
      simp only [natDigitsF, h10, if_false, digitsVal, List.foldl_append,
        List.foldl_cons, List.foldl_nil]
      have := ih (n / 10) hdiv
      simp only [digitsVal] at this
      rw [this, digitCh_val hmod]
      omega

theorem parseDigits_append : ∀ ds acc rest, (∀ c ∈ ds, c.isDigit = true) →
    headDigit rest = false →
    parseDigits (ds ++ rest) acc =
      (List.foldl (fun a c => a * 10 + (c.toNat - 48)) acc ds, rest) := by
  intro ds
  induction ds with
  | nil =>
    intro acc rest _ hrest
    cases rest with
    | nil => simp [parseDigits]
    | cons c r =>
      simp only [headDigit] at hrest
      simp [parseDigits, hrest]
  | cons c ds ih =>
    intro acc rest hds hrest
    have hc : c.isDigit = true := hds c (by simp)
    simp only [List.cons_append, parseDigits, hc, if_true, List.foldl_cons]
    exact ih _ rest (fun d hd => hds d (by simp [hd])) hrest

theorem natDigits_digits {n : Nat} : ∀ c ∈ natDigits n, c.isDigit = true :=
  natDigitsF_digits (n + 1) n (by omega)

theorem natDigits_ne_nil {n : Nat} : natDigits n ≠ [] :=
  natDigitsF_ne_nil (n + 1) n (by omega)

theorem natDigits_val {n : Nat} : digitsVal (natDigits n) = n :=
  natDigitsF_val (n + 1) n (by omega)

/-- Parsing the digit run of `n` followed by a non-digit yields `n`. -/
theorem parseNumber_natDigits (n : Nat) (rest : List Char)
    (hrest : headDigit rest = false) :
    parseNumber (natDigits n ++ rest) = some ((n : Int), rest) := by
  obtain ⟨d, ds, hds⟩ : ∃ d ds, natDigits n = d :: ds := by
    cases h : natDigits n with
    | nil => exact absurd h natDigits_ne_nil
    | cons d ds => exact ⟨d, ds, rfl⟩
  have hd : d.isDigit = true := natDigits_digits d (by rw [hds]; simp)
  have hdsd : ∀ c ∈ ds, c.isDigit = true := fun c hc =>
    natDigits_digits c (by rw [hds]; simp [hc])
  have hne : d ≠ '-' := char_ne_of_digit hd (by decide)
  rw [hds, List.cons_append]
  simp only [parseNumber, hne, if_false, hd, if_true]
  rw [parseDigits_append ds (d.toNat - 48) rest hdsd hrest]
  have hval : List.foldl (fun a c => a * 10 + (c.toNat - 48)) (d.toNat - 48) ds = n := by
    have : List.foldl (fun a c => a * 10 + (c.toNat - 48)) 0 (d :: ds) = n := by
      have := @natDigits_val n
      rw [hds] at this
      exact this
    simpa using this
  simp [hval]

theorem parseNumber_encodeInt (i : Int) (rest : List Char)
    (hrest : headDigit rest = false) :
    parseNumber (encodeInt i ++ rest) = some (i, rest) := by
  by_cases hneg : i < 0
  · obtain ⟨d, ds, hds⟩ : ∃ d ds, natDigits i.natAbs = d :: ds := by
      cases h : natDigits i.natAbs with
      | nil => exact absurd h natDigits_ne_nil
      | cons d ds => exact ⟨d, ds, rfl⟩
    have hd : d.isDigit = true := natDigits_digits d (by rw [hds]; simp)
    have hdsd : ∀ c ∈ ds, c.isDigit = true := fun c hc =>
      natDigits_digits c (by rw [hds]; simp [hc])
    simp only [encodeInt, hneg, if_true, hds, List.cons_append]
    simp only [parseNumber, reduceIte, hd, if_true]
    rw [parseDigits_append ds (d.toNat - 48) rest hdsd hrest]
    have hval : List.foldl (fun a c => a * 10 + (c.toNat - 48)) (d.toNat - 48) ds
        = i.natAbs := by
      have h0 : List.foldl (fun a c => a * 10 + (c.toNat - 48)) 0 (d :: ds)
          = i.natAbs := by
        have := @natDigits_val i.natAbs
        rw [hds] at this
        exact this
      simpa using h0
    rw [hval]
    simp only [Option.some.injEq, Prod.mk.injEq]
    exact ⟨by omega, trivial⟩
  · simp only [encodeInt, hneg, if_false]
    rw [parseNumber_natDigits i.toNat rest hrest]
    have : ((i.toNat : Nat) : Int) = i := by omega
    simp [this]

theorem parseStrBody_escapeChar (c : Char) (t : List Char) :
    parseStrBody (escapeChar c ++ t) =
      (parseStrBody t).map (fun p => (c :: p.1, p.2)) := by
  cases hp : parseStrBody t with
  | none =>
    by_cases h1 : c = '"'
    · subst h1; simp [escapeChar, parseStrBody, unescChar, hp]
    by_cases h2 : c = '\\'
    · subst h2; simp [escapeChar, parseStrBody, unescChar, hp]
    by_cases h3 : c = '\n'
    · subst h3; simp [escapeChar, parseStrBody, unescChar, hp]
    by_cases h4 : c = '\r'
    · subst h4; simp [escapeChar, parseStrBody, unescChar, hp]
    by_cases h5 : c = '\t'
    · subst h5; simp [escapeChar, parseStrBody, unescChar, hp]
    by_cases h6 : c = Char.ofNat 8
    · subst h6; simp [escapeChar, parseStrBody, unescChar, hp]
    by_cases h7 : c = Char.ofNat 12
    · subst h7; simp [escapeChar, parseStrBody, unescChar, hp]
    · rw [escapeChar, if_neg h1, if_neg h2, if_neg h3, if_neg h4, if_neg h5,
        if_neg h6, if_neg h7]
      rw [List.singleton_append, parseStrBody.eq_def]
      simp [h1, h2, hp]
  | some p =>
    by_cases h1 : c = '"'
    · subst h1; simp [escapeChar, parseStrBody, unescChar, hp]
    by_cases h2 : c = '\\'
    · subst h2; simp [escapeChar, parseStrBody, unescChar, hp]
    by_cases h3 : c = '\n'
    · subst h3; simp [escapeChar, parseStrBody, unescChar, hp]
    by_cases h4 : c = '\r'
    · subst h4; simp [escapeChar, parseStrBody, unescChar, hp]
    by_cases h5 : c = '\t'
    · subst h5; simp [escapeChar, parseStrBody, unescChar, hp]
    by_cases h6 : c = Char.ofNat 8
    · subst h6; simp [escapeChar, parseStrBody, unescChar, hp]
    by_cases h7 : c = Char.ofNat 12
    · subst h7; simp [escapeChar, parseStrBody, unescChar, hp]
    · rw [escapeChar, if_neg h1, if_neg h2, if_neg h3, if_neg h4, if_neg h5,
        if_neg h6, if_neg h7]
      rw [List.singleton_append, parseStrBody.eq_def]
      simp [h1, h2, hp]

theorem parseStrBody_escList (s : List Char) (rest : List Char) :
    parseStrBody (escList s ++ ('"' :: rest)) = some (s, rest) := by
  induction s with
  | nil =>
    rw [escList, List.nil_append, parseStrBody.eq_def]
    simp
  | cons c cs ih =>
    have heq : escList (c :: cs) ++ ('"' :: rest)
        = escapeChar c ++ (escList cs ++ ('"' :: rest)) := by
      simp [escList, List.append_assoc]
    rw [heq, parseStrBody_escapeChar, ih]
    rfl

/-! Definitional unfoldings of `parseVal` at each known head character. -/

theorem parseVal_quote (n : Nat) (t : List Char) :
    parseVal (n + 1) ('"' :: t) =
      match parseStrBody t with
      | some (cs, r2) => some (.str (String.mk cs), r2)
      | none => none := rfl

theorem parseVal_lbrace (n : Nat) (t : List Char) :
    parseVal (n + 1) ('{' :: t) =
      match skipWs t with
      | [] => none
      | d :: r2 =>
        if d = '}' then some (.obj [], r2)
        else
          match parseMembers n (d :: r2) with
          | some (kvs, r3) => some (.obj kvs, r3)
          | none => none := rfl

theorem parseVal_lbrack (n : Nat) (t : List Char) :
    parseVal (n + 1) ('[' :: t) =
      match skipWs t with
      | [] => none
      | d :: r2 =>
        if d = ']' then some (.arr [], r2)
        else
          match parseElems n (d :: r2) with
          | some (vs, r3) => some (.arr vs, r3)
          | none => none := rfl

theorem parseVal_num_head (n : Nat) (c : Char) (r : List Char)
    (h : c.isDigit = true) :
    parseVal (n + 1) (c :: r) =
      match parseNumber (c :: r) with
      | some p => some (.num p.1, p.2)
      | none => none := by
  have hws := isJsonWs_of_digit h
  have h1 : c ≠ '{' := char_ne_of_digit h (by decide)
  have h2 : c ≠ '[' := char_ne_of_digit h (by decide)
  have h3 : c ≠ '"' := char_ne_of_digit h (by decide)
  have h4 : c ≠ 'n' := char_ne_of_digit h (by decide)
  have h5 : c ≠ 't' := char_ne_of_digit h (by decide)
  have h6 : c ≠ 'f' := char_ne_of_digit h (by decide)
  simp only [parseVal, skipWs_not_ws r hws, h1, h2, h3, h4, h5, h6, if_false]

theorem parseVal_dash (n : Nat) (r : List Char) :
    parseVal (n + 1) ('-' :: r) =
      match parseNumber ('-' :: r) with
      | some p => some (.num p.1, p.2)
      | none => none := rfl

theorem parseElems_succ (n : Nat) (s : List Char) :
    parseElems (n + 1) s =
      match parseVal n s with
      | none => none
      | some (v, r) =>
        match skipWs r with
        | [] => none
        | d :: r2 =>
          if d = ',' then
            match parseElems n r2 with
            | some (vs, r3) => some (v :: vs, r3)
            | none => none
          else if d = ']' then some ([v], r2)
          else none := rfl

theorem parseMembers_succ (n : Nat) (s : List Char) :
    parseMembers (n + 1) s =
      match skipWs s with
      | [] => none
      | c :: r =>
        if c = '"' then
          match parseStrBody r with
          | none => none
          | some (k, r2) =>
            match skipWs r2 with
            | [] => none
            | d :: r3 =>
              if d = ':' then
                match parseVal n r3 with
                | none => none
                | some (v, r4) =>
                  match skipWs r4 with
                  | [] => none
                  | e :: r5 =>
                    if e = ',' then
                      match parseMembers n r5 with
                      | some (kvs, r6) => some ((String.mk k, v) :: kvs, r6)
                      | none => none
                    else if e = '}' then some ([(String.mk k, v)], r5)
                    else none
              else none
        else none := rfl

theorem natDigits_cons (n : Nat) :
    ∃ d ds, natDigits n = d :: ds ∧ d.isDigit = true := by
  cases h : natDigits n with
  | nil => exact absurd h natDigits_ne_nil
  | cons d ds =>
    exact ⟨d, ds, rfl, natDigits_digits d (by rw [h]; simp)⟩

/-- Every encoded value starts with a non-whitespace character other
than `]` (used to resolve the array-element branch). -/
theorem encodeVal_head (v : JValue) : ∃ c t, encodeVal v = c :: t ∧
    isJsonWs c = false ∧ c ≠ ']' := by
  cases v with
  | null => exact ⟨'n', _, rfl, by decide, by decide⟩
  | bool b =>
    cases b with
    | false => exact ⟨'f', _, rfl, by decide, by decide⟩
    | true => exact ⟨'t', _, rfl, by decide, by decide⟩
  | num i =>
    by_cases hneg : i < 0
    · refine ⟨'-', natDigits i.natAbs, ?_, by decide, by decide⟩
      simp [encodeVal, encodeInt, hneg]
    · obtain ⟨d, ds, hds, hd⟩ := natDigits_cons i.toNat
      refine ⟨d, ds, ?_, isJsonWs_of_digit hd, char_ne_of_digit hd (by decide)⟩
      simp [encodeVal, encodeInt, hneg, hds]
  | str s => exact ⟨'"', _, rfl, by decide, by decide⟩
  | arr xs =>
    cases xs with
    | nil => exact ⟨'[', _, rfl, by decide, by decide⟩
    | cons x t => exact ⟨'[', _, rfl, by decide, by decide⟩
  | obj kvs =>
    cases kvs with
    | nil => exact ⟨'{', _, rfl, by decide, by decide⟩
    | cons kv t => exact ⟨'{', _, rfl, by decide, by decide⟩

theorem encodeVal_length_pos (v : JValue) : 1 ≤ (encodeVal v).length := by
  obtain ⟨c, t, h, -, -⟩ := encodeVal_head v
  rw [h]
  simp

theorem encodeElemsTail_length_pos (xs : List JValue) :
    1 ≤ (encodeElemsTail xs).length := by
  cases xs <;> simp [encodeElemsTail]

theorem encodeMembersTail_length_pos (kvs : List (String × JValue)) :
    1 ≤ (encodeMembersTail kvs).length := by
  cases kvs <;> simp [encodeMembersTail]

theorem parseVal_lbrack_cons (n : Nat) (c : Char) (t2 : List Char)
    (hws : isJsonWs c = false) (hne : c ≠ ']') :
    parseVal (n + 1) ('[' :: (c :: t2)) =
      match parseElems n (c :: t2) with
      | some (vs, r3) => some (.arr vs, r3)
      | none => none := by
  rw [parseVal_lbrack, skipWs_not_ws _ hws]
  show (if c = ']' then some (JValue.arr [], t2)
      else match parseElems n (c :: t2) with
        | some (vs, r3) => some (JValue.arr vs, r3)
        | none => none)
    = match parseElems n (c :: t2) with
      | some (vs, r3) => some (JValue.arr vs, r3)
      | none => none
  rw [if_neg hne]

theorem parseVal_lbrace_cons (n : Nat) (c : Char) (t2 : List Char)
    (hws : isJsonWs c = false) (hne : c ≠ '}') :
    parseVal (n + 1) ('{' :: (c :: t2)) =
      match parseMembers n (c :: t2) with
      | some (kvs, r3) => some (.obj kvs, r3)
      | none => none := by
  rw [parseVal_lbrace, skipWs_not_ws _ hws]
  show (if c = '}' then some (JValue.obj [], t2)
      else match parseMembers n (c :: t2) with
        | some (kvs, r3) => some (JValue.obj kvs, r3)
        | none => none)
    = match parseMembers n (c :: t2) with
      | some (kvs, r3) => some (JValue.obj kvs, r3)
      | none => none
  rw [if_neg hne]

/-- Main round-trip invariant: on encoder output followed by a
non-digit-initial remainder, the parser returns exactly the encoded
value, provided the fuel exceeds the encoded length. -/
theorem parse_encode : ∀ n : Nat,
    (∀ v rest, (encodeVal v).length < n → headDigit rest = false →
        parseVal n (encodeVal v ++ rest) = some (v, rest)) ∧
    (∀ x xs rest, (encodeVal x ++ encodeElemsTail xs).length < n →
        parseElems n (encodeVal x ++ encodeElemsTail xs ++ rest)
          = some (x :: xs, rest)) ∧
    (∀ k v kvs rest,
        (encodeMember (k, v) ++ encodeMembersTail kvs).length < n →
        parseMembers n (encodeMember (k, v) ++ encodeMembersTail kvs ++ rest)
          = some ((k, v) :: kvs, rest)) := by
  intro n
  induction n using Nat.strong_induction_on with
  | _ n IH =>
  match n with
  | 0 =>
    exact ⟨fun v rest hlen _ => absurd hlen (by omega),
           fun x xs rest hlen => absurd hlen (by omega),
           fun k v kvs rest hlen => absurd hlen (by omega)⟩
  | m + 1 =>
    obtain ⟨IH1, IH2, IH3⟩ := IH m (by omega)
    refine ⟨?_, ?_, ?_⟩
    · -- values
      intro v rest hlen hrest
      cases v with
      | null => rfl
      | bool b => cases b <;> rfl
      | num i =>
        have hnum := parseNumber_encodeInt i rest hrest
        show parseVal (m + 1) (encodeInt i ++ rest) = some (JValue.num i, rest)
        by_cases hneg : i < 0
        · have he : encodeInt i = '-' :: natDigits i.natAbs := by
            simp [encodeInt, hneg]
          rw [he] at hnum ⊢
          rw [List.cons_append] at hnum ⊢
          rw [parseVal_dash, hnum]
        · obtain ⟨d, ds, hds, hd⟩ := natDigits_cons i.toNat
          have he : encodeInt i = d :: ds := by simp [encodeInt, hneg, hds]
          rw [he] at hnum ⊢
          rw [List.cons_append] at hnum ⊢
          rw [parseVal_num_head m d _ hd, hnum]
      | str s =>
        rcases s with ⟨sd⟩
        show parseVal (m + 1) (('"' :: (escList sd ++ ['"'])) ++ rest)
            = some (JValue.str (String.mk sd), rest)
        rw [List.cons_append, List.append_assoc, List.singleton_append]
        rw [parseVal_quote, parseStrBody_escList]
      | arr xs =>
        cases xs with
        | nil => rfl
        | cons x xs =>
          obtain ⟨c, t, hct, hws, hne⟩ := encodeVal_head x
          show parseVal (m + 1)
              (('[' :: (encodeVal x ++ encodeElemsTail xs)) ++ rest)
              = some (JValue.arr (x :: xs), rest)
          have hshape : ('[' :: (encodeVal x ++ encodeElemsTail xs)) ++ rest
              = '[' :: (c :: (t ++ encodeElemsTail xs ++ rest)) := by
            rw [hct]
            simp [List.append_assoc]
          rw [hshape, parseVal_lbrack_cons m c _ hws hne]
          have hback : c :: (t ++ encodeElemsTail xs ++ rest)
              = encodeVal x ++ encodeElemsTail xs ++ rest := by
            rw [hct]
            simp [List.append_assoc]
          rw [hback]
          have hl : (encodeVal x ++ encodeElemsTail xs).length < m := by
            have : (encodeVal (.arr (x :: xs))).length
                = 1 + (encodeVal x ++ encodeElemsTail xs).length := by
              show ('[' :: (encodeVal x ++ encodeElemsTail xs)).length = _
              simp
              omega
            omega
          rw [IH2 x xs rest hl]
      | obj kvs =>
        cases kvs with
        | nil => rfl
        | cons kv kvs =>
          obtain ⟨k, v⟩ := kv
          show parseVal (m + 1)
              (('{' :: (encodeMember (k, v) ++ encodeMembersTail kvs)) ++ rest)
              = some (JValue.obj ((k, v) :: kvs), rest)
          obtain ⟨t, ht⟩ : ∃ t, encodeMember (k, v) = '"' :: t := by
            refine ⟨(escList k.data ++ ['"']) ++ (':' :: encodeVal v), ?_⟩
            simp [encodeMember, encodeStr]
          have hshape : ('{' :: (encodeMember (k, v) ++ encodeMembersTail kvs)) ++ rest
              = '{' :: ('"' :: (t ++ encodeMembersTail kvs ++ rest)) := by
            rw [ht]
            simp [List.append_assoc]
          rw [hshape, parseVal_lbrace_cons m '"' _ (by decide) (by decide)]
          have hback : '"' :: (t ++ encodeMembersTail kvs ++ rest)
              = encodeMember (k, v) ++ encodeMembersTail kvs ++ rest := by
            rw [ht]
            simp [List.append_assoc]
          rw [hback]
          have hl : (encodeMember (k, v) ++ encodeMembersTail kvs).length < m := by
            have : (encodeVal (.obj ((k, v) :: kvs))).length
                = 1 + (encodeMember (k, v) ++ encodeMembersTail kvs).length := by
              show ('{' :: (encodeMember (k, v) ++ encodeMembersTail kvs)).length = _
              simp
              omega
            omega
          rw [IH3 k v kvs rest hl]
    · -- array elements
      intro x xs rest hlen
      rw [parseElems_succ]
      have hassoc : encodeVal x ++ encodeElemsTail xs ++ rest
          = encodeVal x ++ (encodeElemsTail xs ++ rest) := by
        simp [List.append_assoc]
      rw [hassoc]
      have hxlen : (encodeVal x).length < m := by
        have h1 := encodeElemsTail_length_pos xs
        have h2 : (encodeVal x ++ encodeElemsTail xs).length
            = (encodeVal x).length + (encodeElemsTail xs).length := by simp
        omega
      have hdig : headDigit (encodeElemsTail xs ++ rest) = false := by
        cases xs <;> rfl
      rw [IH1 x (encodeElemsTail xs ++ rest) hxlen hdig]
      cases xs with
      | nil => rfl
      | cons y ys =>
        show (match skipWs ((',' :: (encodeVal y ++ encodeElemsTail ys)) ++ rest) with
          | [] => none
          | d :: r2 =>
            if d = ',' then
              match parseElems m r2 with
              | some (vs, r3) => some (x :: vs, r3)
              | none => none
            else if d = ']' then some ([x], r2)
            else none) = some (x :: y :: ys, rest)
        rw [List.cons_append, skipWs_not_ws _ (by decide)]
        show (match parseElems m ((encodeVal y ++ encodeElemsTail ys) ++ rest) with
          | some (vs, r3) => some (x :: vs, r3)
          | none => none) = some (x :: y :: ys, rest)
        have hylen : (encodeVal y ++ encodeElemsTail ys).length < m := by
          have h1 := encodeVal_length_pos x
          have h2 : (encodeVal x ++ encodeElemsTail (y :: ys)).length
              = (encodeVal x).length + 1
                + (encodeVal y ++ encodeElemsTail ys).length := by
            show (encodeVal x ++ (',' :: (encodeVal y ++ encodeElemsTail ys))).length = _
            simp
            omega
          omega
        rw [IH2 y ys rest hylen]
    · -- object members
      intro k v kvs rest hlen
      rcases k with ⟨kd⟩
      rw [parseMembers_succ]
      have hshape : encodeMember (String.mk kd, v) ++ encodeMembersTail kvs ++ rest
          = '"' :: (escList kd
              ++ ('"' :: (':' :: (encodeVal v ++ (encodeMembersTail kvs ++ rest))))) := by
        show (('"' :: (escList kd ++ ['"'])) ++ (':' :: encodeVal v))
            ++ encodeMembersTail kvs ++ rest = _
        simp [List.append_assoc]
      rw [hshape, skipWs_not_ws _ (by decide)]
      show (match parseStrBody (escList kd
          ++ ('"' :: (':' :: (encodeVal v ++ (encodeMembersTail kvs ++ rest))))) with
        | none => none
        | some (k2, r2) =>
          match skipWs r2 with
          | [] => none
          | d :: r3 =>
            if d = ':' then
              match parseVal m r3 with
              | none => none
              | some (v2, r4) =>
                match skipWs r4 with
                | [] => none
                | e :: r5 =>
                  if e = ',' then
                    match parseMembers m r5 with
                    | some (kvs2, r6) => some ((String.mk k2, v2) :: kvs2, r6)
                    | none => none
                  else if e = '}' then some ([(String.mk k2, v2)], r5)
                  else none
            else none) = some ((String.mk kd, v) :: kvs, rest)
      rw [parseStrBody_escList]
      show (match skipWs (':' :: (encodeVal v ++ (encodeMembersTail kvs ++ rest))) with
        | [] => none
        | d :: r3 =>
          if d = ':' then
            match parseVal m r3 with
            | none => none
            | some (v2, r4) =>
              match skipWs r4 with
              | [] => none
              | e :: r5 =>
                if e = ',' then
                  match parseMembers m r5 with
                  | some (kvs2, r6) => some ((String.mk kd, v2) :: kvs2, r6)
                  | none => none
                else if e = '}' then some ([(String.mk kd, v2)], r5)
                else none
          else none) = some ((String.mk kd, v) :: kvs, rest)
      rw [skipWs_not_ws _ (by decide)]
      have hvlen : (encodeVal v).length < m := by
        have h1 := encodeMembersTail_length_pos kvs
        have h2 : (encodeMember (String.mk kd, v)).length
            = (escList kd).length + 3 + (encodeVal v).length := by
          show (('"' :: (escList kd ++ ['"'])) ++ (':' :: encodeVal v)).length = _
          simp
          omega
        have h3 : (encodeMember (String.mk kd, v) ++ encodeMembersTail kvs).length
            = (encodeMember (String.mk kd, v)).length
              + (encodeMembersTail kvs).length := by simp
        omega
      have hdig : headDigit (encodeMembersTail kvs ++ rest) = false := by
        cases kvs <;> rfl
      show (if ':' = ':' then
          match parseVal m (encodeVal v ++ (encodeMembersTail kvs ++ rest)) with
          | none => none
          | some (v2, r4) =>
            match skipWs r4 with
            | [] => none
            | e :: r5 =>
              if e = ',' then
                match parseMembers m r5 with
                | some (kvs2, r6) => some ((String.mk kd, v2) :: kvs2, r6)
                | none => none
              else if e = '}' then some ([(String.mk kd, v2)], r5)
              else none
          else none) = some ((String.mk kd, v) :: kvs, rest)
      rw [if_pos rfl, IH1 v (encodeMembersTail kvs ++ rest) hvlen hdig]
      cases kvs with
      | nil => rfl
      | cons kv2 kvs2 =>
        obtain ⟨k2, v2⟩ := kv2
        show (match skipWs ((',' :: (encodeMember (k2, v2)
            ++ encodeMembersTail kvs2)) ++ rest) with
          | [] => none
          | e :: r5 =>
            if e = ',' then
              match parseMembers m r5 with
              | some (kvs3, r6) => some ((String.mk kd, v) :: kvs3, r6)
              | none => none
            else if e = '}' then some ([(String.mk kd, v)], r5)
            else none) = some ((String.mk kd, v) :: (k2, v2) :: kvs2, rest)
        rw [List.cons_append, skipWs_not_ws _ (by decide)]
        show (match parseMembers m ((encodeMember (k2, v2)
            ++ encodeMembersTail kvs2) ++ rest) with
          | some (kvs3, r6) => some ((String.mk kd, v) :: kvs3, r6)
          | none => none) = some ((String.mk kd, v) :: (k2, v2) :: kvs2, rest)
        have hl2 : (encodeMember (k2, v2) ++ encodeMembersTail kvs2).length < m := by
          have h1 : 1 ≤ (encodeMember (String.mk kd, v)).length := by
            show 1 ≤ (('"' :: (escList kd ++ ['"'])) ++ (':' :: encodeVal v)).length
            simp
          have h2 : (encodeMember (String.mk kd, v)
              ++ encodeMembersTail ((k2, v2) :: kvs2)).length
              = (encodeMember (String.mk kd, v)).length + 1
                + (encodeMember (k2, v2) ++ encodeMembersTail kvs2).length := by
            show (encodeMember (String.mk kd, v)
                ++ (',' :: (encodeMember (k2, v2) ++ encodeMembersTail kvs2))).length = _
            simp
            omega
          omega
        rw [IH3 k2 v2 kvs2 rest hl2]

theorem jsonDecode_encodeVal (v : JValue) : jsonDecode (encodeVal v) = some v := by
  unfold jsonDecode
  have h := (parse_encode (2 * (encodeVal v).length + 2)).1 v [] (by omega) rfl
  rw [List.append_nil] at h
  rw [h]
  rfl

example : jsonDecode ("123".data) = some (.num 123) := rfl
example : jsonDecode (" -45 ".data) = some (.num (-45)) := rfl
example : jsonDecode ("null".data) = some .null := rfl
example : jsonDecode ("\x7b\"a\": [1, \"b\\n\"]\x7d".data) =
    some (.obj [("a", .arr [.num 1, .str "b\n"])]) := rfl
example : jsonDecode ("\x7b\"a\": 1".data) = none := rfl
example : encodeVal (.obj [("a", .arr [.num (-3), .str "x\ny"])]) =
    "\x7b\"a\":[-3,\"x\\ny\"]\x7d".data := rfl
example : repairBackslashes ("a\\y \\n \\\\ \\\"".data) =
    "a\\\\y \\n \\\\ \\\"".data := rfl
example : safe_json_parse ("\x7b\"a\": \"x\\yz\"\x7d".data) =
    .ok (.obj [("a", .str "x\\yz")]) := rfl
example : safe_json_parse ("\x7b\"a\": 1".data) =
    .error (("\x7b\"a\": 1".data).take 500) := rfl

theorem lookupLast_setPairs_ne (kvs : List (String × JValue))
    (key key2 : String) (v : JValue) (h : key2 ≠ key) :
    lookupLast (setPairs kvs key v) key2 = lookupLast kvs key2 := by
  have hne : (key == key2) = false :=
    beq_eq_false_iff_ne.mpr (fun e => h e.symm)
  induction kvs with
  | nil => simp [setPairs, lookupLast, hne]
  | cons kv rest ih =>
    obtain ⟨k, w⟩ := kv
    by_cases hkeq : k = key
    · subst hkeq
      have hkk : (k == k) = true := by simp
      simp only [setPairs, hkk, if_true, lookupLast]
      cases lookupLast rest key2 <;> simp [hne]
    · have hkf : (k == key) = false := beq_eq_false_iff_ne.mpr hkeq
      simp only [setPairs, hkf, Bool.false_eq_true, if_false, lookupLast, ih]

theorem getField_setField_ne (j : JValue) (key key2 : String) (v : JValue)
    (h : key2 ≠ key) :
    (j.setField key v).getField key2 = j.getField key2 := by
  cases j <;> simp [JValue.setField, JValue.getField]
  exact lookupLast_setPairs_ne _ key key2 v h

theorem bodyOf_eq {v : JValue} {s : String}
    (h : v.getField bodyKey = some (.str s)) : bodyOf v = s.data := by
  simp [bodyOf, h, asString]

/-- If every episode in `l` is generated and parsed successfully into a
well-formed record, the loop persists exactly those records, with the
running summary, persisted records and ending anchor described by the
reference functions. -/
theorem create_story_loop_ok
    (gw : EpisodeRequest → Except (List Char) (List Char))
    (orc : SummRequest → List Char) (cfg : StoryCfg) (n : Nat)
    (R : Nat → JValue) :
    ∀ (l : List Nat) (story : JValue) (ts : List Char)
      (lea : Option JValue) (per : List (Nat × JValue)),
    (story.getField charsKey).isSome = true →
    (∀ j ∈ l, (∀ req : EpisodeRequest, req.episode_number = j →
        generate_episode gw req = .ok (R j)) ∧ WfRec (R j)) →
    create_story_loop gw orc cfg n l story ts lea per =
      ⟨none, per ++ runRecords orc R l ts, runSummary orc R l ts,
        runLea R l lea⟩ := by
  intro l
  induction l with
  | nil =>
    intro story ts lea per hst hgood
    simp [create_story_loop, runRecords, runSummary, runLea]
  | cons j rest ih =>
    intro story ts lea per hst hgood
    obtain ⟨chars, hchars⟩ : ∃ c, story.getField charsKey = some c := by
      cases h : story.getField charsKey with
      | none => rw [h] at hst; cases hst
      | some c => exact ⟨c, rfl⟩
    have hj := hgood j (by simp)
    have hgen := hj.1
        { episode_number := j
          total_episodes := n
          summary_context := some ts
          previous_characters := some chars
          required_characters := none
          ended_at := lea
          cfg := cfg } rfl
    obtain ⟨⟨bs, hbody⟩, hcs⟩ := hj.2
    simp only [create_story_loop, hchars, hgen, hbody, asString]
    have hst3 : (((R j).setField summaryKey
        (.str (String.mk (ts ++ ('\n' :: summarize_with_openai orc bs.data none))))).getField
          charsKey).isSome = true := by
      rw [getField_setField_ne _ _ _ _ (by decide)]
      exact hcs
    rw [ih _ _ _ _ hst3 (fun i hi => hgood i (by simp [hi]))]
    have hb : bodyOf (R j) = bs.data := bodyOf_eq hbody
    simp [runRecords, runSummary, runLea, hb]

/-- If episode `k`'s generation (gateway or parse) fails while all
earlier episodes succeed, the loop over `range' a b` containing `k`
aborts with that error, having persisted exactly the episodes `a..k-1`
on top of what was already persisted. -/
theorem create_story_loop_fail
    (gw : EpisodeRequest → Except (List Char) (List Char))
    (orc : SummRequest → List Char) (cfg : StoryCfg) (n : Nat)
    (R : Nat → JValue) (k : Nat) (e : RunError)
    (hfail : ∀ req : EpisodeRequest, req.episode_number = k →
      generate_episode gw req = .error e)
    (hgood : ∀ j, j < k → (∀ req : EpisodeRequest, req.episode_number = j →
      generate_episode gw req = .ok (R j)) ∧ WfRec (R j)) :
    ∀ (b a : Nat) (story : JValue) (ts : List Char) (lea : Option JValue)
      (per : List (Nat × JValue)),
    a ≤ k → k < a + b →
    (story.getField charsKey).isSome = true →
    (create_story_loop gw orc cfg n (List.range' a b) story ts lea per).err
        = some e ∧
    ((create_story_loop gw orc cfg n (List.range' a b) story ts lea
        per).persisted).map Prod.fst
      = per.map Prod.fst ++ List.range' a (k - a) := by
  intro b
  induction b with
  | zero =>
    intro a story ts lea per ha hb
    omega
  | succ b ih =>
    intro a story ts lea per ha hb hst
    obtain ⟨chars, hchars⟩ : ∃ c, story.getField charsKey = some c := by
      cases h : story.getField charsKey with
      | none => rw [h] at hst; cases hst
      | some c => exact ⟨c, rfl⟩
    rw [List.range'_succ a b 1]
    by_cases hak : a = k
    · subst hak
      have hgen := hfail
          { episode_number := a
            total_episodes := n
            summary_context := some ts
            previous_characters := some chars
            required_characters := none
            ended_at := lea
            cfg := cfg } rfl
      simp only [create_story_loop, hchars, hgen]
      simp
    · have halt : a < k := lt_of_le_of_ne ha hak
      have hj := hgood a halt
      have hgen := hj.1
          { episode_number := a
            total_episodes := n
            summary_context := some ts
            previous_characters := some chars
            required_characters := none
            ended_at := lea
            cfg := cfg } rfl
      obtain ⟨⟨bs, hbody⟩, hcs⟩ := hj.2
      simp only [create_story_loop, hchars, hgen, hbody, asString]
      have hst3 : (((R a).setField summaryKey
          (.str (String.mk (ts ++ ('\n' :: summarize_with_openai orc bs.data
            none))))).getField charsKey).isSome = true := by
        rw [getField_setField_ne _ _ _ _ (by decide)]
        exact hcs
      have hrec := ih (a + 1)
          ((R a).setField summaryKey (.str (String.mk (ts
            ++ ('\n' :: summarize_with_openai orc bs.data none)))))
          (ts ++ ('\n' :: summarize_with_openai orc bs.data none))
          ((R a).getField endedAtKey)
          (per ++ [(a, (R a).setField summaryKey (.str (String.mk (ts
            ++ ('\n' :: summarize_with_openai orc bs.data none)))))])
          (by omega) (by omega) hst3
      refine ⟨hrec.1, ?_⟩
      rw [hrec.2]
      have hk : k - a = (k - (a + 1)) + 1 := by omega
      rw [hk, List.range'_succ a (k - (a + 1)) 1]
      simp

/-- If the record for episode `k` parses but lacks
`current_characters` (all earlier records being well-formed), the loop
aborts with a KeyError while building the call for episode `k+1`,
having persisted episodes `a..k`. -/
theorem create_story_loop_keyerr
    (gw : EpisodeRequest → Except (List Char) (List Char))
    (orc : SummRequest → List Char) (cfg : StoryCfg) (n : Nat)
    (R : Nat → JValue) (k : Nat)
    (hgoodparse : ∀ j, j ≤ k → ∀ req : EpisodeRequest,
      req.episode_number = j → generate_episode gw req = .ok (R j))
    (hwf : ∀ j, j < k → WfRec (R j))
    (hbody : ∃ s, (R k).getField bodyKey = some (.str s))
    (hnochars : (R k).getField charsKey = none) :
    ∀ (b a : Nat) (story : JValue) (ts : List Char) (lea : Option JValue)
      (per : List (Nat × JValue)),
    a ≤ k + 1 → k + 1 < a + b →
    (a ≤ k → (story.getField charsKey).isSome = true) →
    (a = k + 1 → story.getField charsKey = none) →
    (create_story_loop gw orc cfg n (List.range' a b) story ts lea per).err
        = some (.keyError charsKey) ∧
    ((create_story_loop gw orc cfg n (List.range' a b) story ts lea
        per).persisted).map Prod.fst
      = per.map Prod.fst ++ List.range' a (k + 1 - a) := by
  intro b
  induction b with
  | zero =>
    intro a story ts lea per ha hb
    omega
  | succ b ih =>
    intro a story ts lea per ha hb hst hstbad
    rw [List.range'_succ a b 1]
    by_cases hak : a = k + 1
    · have hnone := hstbad hak
      subst hak
      simp only [create_story_loop, hnone]
      simp
    · have hale : a ≤ k := by omega
      obtain ⟨chars, hchars⟩ : ∃ c, story.getField charsKey = some c := by
        cases h : story.getField charsKey with
        | none =>
          have hcontra := hst hale
          rw [h] at hcontra
          cases hcontra
        | some c => exact ⟨c, rfl⟩
      have hgen := hgoodparse a hale
          { episode_number := a
            total_episodes := n
            summary_context := some ts
            previous_characters := some chars
            required_characters := none
            ended_at := lea
            cfg := cfg } rfl
      obtain ⟨bs, hbodya⟩ : ∃ s, (R a).getField bodyKey = some (.str s) := by
        by_cases hak2 : a = k
        · exact hak2 ▸ hbody
        · exact (hwf a (by omega)).1
      simp only [create_story_loop, hchars, hgen, hbodya, asString]
      have hrec := ih (a + 1) ((R a).setField summaryKey
          (.str (String.mk (ts ++ ('\n' :: summarize_with_openai orc bs.data
            none)))))
          (ts ++ ('\n' :: summarize_with_openai orc bs.data none))
          ((R a).getField endedAtKey)
          (per ++ [(a, (R a).setField summaryKey (.str (String.mk (ts
            ++ ('\n' :: summarize_with_openai orc bs.data none)))))])
          (by omega) (by omega)
        (fun hle => by
          rw [getField_setField_ne _ _ _ _ (by decide)]
          exact (hwf a (by omega)).2)
        (fun heq => by
          rw [getField_setField_ne _ _ _ _ (by decide)]
          have : a = k := by omega
          exact this ▸ hnochars)
      refine ⟨hrec.1, ?_⟩
      rw [hrec.2]
      have hk : k + 1 - a = (k + 1 - (a + 1)) + 1 := by omega
      rw [hk, List.range'_succ a (k + 1 - (a + 1)) 1]
      simp

theorem runRecords_map_fst (orc : SummRequest → List Char) (R : Nat → JValue) :
    ∀ (l : List Nat) (ts : List Char),
    (runRecords orc R l ts).map Prod.fst = l := by
  intro l
  induction l with
  | nil => intro ts; rfl
  | cons j rest ih => intro ts; simp [runRecords, ih]

theorem runLea_range' (R : Nat → JValue) :
    ∀ (b a : Nat) (lea : Option JValue),
    runLea R (List.range' a (b + 1)) lea = (R (a + b)).getField endedAtKey := by
  intro b
  induction b with
  | zero => intro a lea; rfl
  | succ b ih =>
    intro a lea
    rw [List.range'_succ a (b + 1) 1, runLea, ih (a + 1)]
    have h : a + 1 + b = a + (b + 1) := by omega
    rw [h]

/-- `create_story` on a run in which every episode generates and parses
into a well-formed record: the full outcome, described by the reference
functions.  Episode 1's summary is the no-context summary of its body;
the loop covers 2..N. -/
theorem create_story_ok
    (gw : EpisodeRequest → Except (List Char) (List Char))
    (orc : SummRequest → List Char) (cfg : StoryCfg)
    (chars0 : JValue) (n : Nat) (R : Nat → JValue)
    (hgood : ∀ j, 1 ≤ j → j ≤ n →
      (∀ req : EpisodeRequest, req.episode_number = j →
        generate_episode gw req = .ok (R j)) ∧ WfRec (R j))
    (hn : 1 ≤ n) :
    create_story gw orc cfg chars0 n =
      ⟨none,
        (1, (R 1).setField summaryKey (.str (String.mk
          (summarize_with_openai orc (bodyOf (R 1)) none))))
          :: runRecords orc R (List.range' 2 (n - 1))
              (summarize_with_openai orc (bodyOf (R 1)) none),
        runSummary orc R (List.range' 2 (n - 1))
          (summarize_with_openai orc (bodyOf (R 1)) none),
        runLea R (List.range' 2 (n - 1)) ((R 1).getField endedAtKey)⟩ := by
  have h1 := hgood 1 (by omega) hn
  have hgen := h1.1
      { episode_number := 1
        total_episodes := n
        summary_context := none
        previous_characters := none
        required_characters := some chars0
        ended_at := none
        cfg := cfg } rfl
  obtain ⟨⟨bs, hbody⟩, hcs⟩ := h1.2
  simp only [create_story, hgen, hbody, asString]
  have hst2 : (((R 1).setField summaryKey
      (.str (String.mk (summarize_with_openai orc bs.data none)))).getField
        charsKey).isSome = true := by
    rw [getField_setField_ne _ _ _ _ (by decide)]
    exact hcs
  rw [create_story_loop_ok gw orc cfg n R _ _ _ _ _ hst2
    (fun j hj => hgood j (by
      have := List.mem_range'_1.mp hj
      omega) (by
      have := List.mem_range'_1.mp hj
      omega))]
  have hb : bodyOf (R 1) = bs.data := bodyOf_eq hbody
  simp [hb]

theorem parse_epRecordText : safe_json_parse epRecordText = .ok epRecord := rfl

theorem parse_epRecordNoEndText :
    safe_json_parse epRecordNoEndText = .ok epRecordNoEnd := rfl

theorem parse_epRecordNoCharsText :
    safe_json_parse epRecordNoCharsText = .ok epRecordNoChars := rfl

theorem wf_epRecord : WfRec epRecord := ⟨⟨"B", rfl⟩, rfl⟩

theorem wf_epRecordNoEnd : WfRec epRecordNoEnd := ⟨⟨"B2", rfl⟩, rfl⟩

/-- The forward-flow loop over `range' a b`: entries outside the range
keep their values; each entry inside equals the oracle's response to a
request whose context is the final (revised) map below it and whose
current text is the original entry. -/
theorem flowLoop_spec (orc : FlowRequest → List Char) (m t : Nat) :
    ∀ (b a : Nat) (o : Nat → List Char),
    (∀ j, j < a ∨ a + b ≤ j →
      flowLoop orc m t (List.range' a b) o j = o j) ∧
    (∀ j, a ≤ j → j < a + b →
      flowLoop orc m t (List.range' a b) o j =
        orc { ep := j
              previous_outlines := (List.range' 1 (j - 1)).map
                (fun i => (i, flowLoop orc m t (List.range' a b) o i))
              current := o j
              modified_episode := m
              total_episodes := t }) := by
  intro b
  induction b with
  | zero =>
    intro a o
    constructor
    · intro j hj
      rfl
    · intro j h1 h2
      omega
  | succ b ih =>
    intro a o
    rw [List.range'_succ a b 1]
    set o2 := fun j => if j = a then
        orc { ep := a
              previous_outlines := (List.range' 1 (a - 1)).map
                (fun i => (i, o i))
              current := o a
              modified_episode := m
              total_episodes := t }
      else o j with ho2
    have hstep : ∀ j, flowLoop orc m t (a :: List.range' (a + 1) b) o j
        = flowLoop orc m t (List.range' (a + 1) b) o2 j := fun j => rfl
    obtain ⟨P1, P2⟩ := ih (a + 1) o2
    have houter : ∀ j, j < a ∨ a + (b + 1) ≤ j →
        flowLoop orc m t (a :: List.range' (a + 1) b) o j = o j := by
      intro j hj
      rw [hstep, P1 j (by omega)]
      have : j ≠ a := by omega
      simp [ho2, this]
    refine ⟨houter, ?_⟩
    intro j h1 h2
    by_cases hja : j = a
    · subst hja
      rw [hstep, P1 j (by omega)]
      simp only [ho2, if_pos rfl]
      have hmap : (List.range' 1 (j - 1)).map
          (fun i => (i, flowLoop orc m t (j :: List.range' (j + 1) b) o i))
          = (List.range' 1 (j - 1)).map (fun i => (i, o i)) := by
        apply List.map_congr_left
        intro i hi
        have hilt : i < j := by
          have := List.mem_range'_1.mp hi
          omega
        rw [hstep, P1 i (by omega)]
        have hne : i ≠ j := by omega
        simp [ho2, hne]
      rw [hmap]
    · have hja2 : a + 1 ≤ j := by omega
      rw [hstep, P2 j hja2 (by omega)]
      have ho2j : o2 j = o j := by simp [ho2, hja]
      rw [ho2j]
      have hmap : (List.range' 1 (j - 1)).map
          (fun i => (i, flowLoop orc m t (List.range' (a + 1) b) o2 i))
          = (List.range' 1 (j - 1)).map
            (fun i => (i, flowLoop orc m t (a :: List.range' (a + 1) b) o i)) := by
        apply List.map_congr_left
        intro i hi
        rw [hstep]
      rw [hmap]

/-- The finalize loop persists one record per processed index when the
gateway and parser succeed on every index with a string body. -/
theorem finalize_loop_ok
    (gw : OutlineEpisodeRequest → Except (List Char) (List Char))
    (orc : SummRequest → List Char) (cfg : StoryCfg)
    (outlines : Nat → List Char) (total : Nat)
    (T : Nat → List Char) (R : Nat → JValue)
    (hgood : ∀ j, (∀ req : OutlineEpisodeRequest, req.episode_number = j →
        gw req = .ok (T j)) ∧ safe_json_parse (T j) = .ok (R j) ∧
        (∃ s, (R j).getField bodyKey = some (.str s))) :
    ∀ (l : List Nat) (ts : List Char) (lea : Option JValue)
      (chars : Option JValue) (per : List (Nat × JValue)),
    (finalize_loop gw orc cfg outlines total l ts lea chars per).err = none ∧
    ((finalize_loop gw orc cfg outlines total l ts lea chars
        per).persisted).map Prod.fst = per.map Prod.fst ++ l := by
  intro l
  induction l with
  | nil =>
    intro ts lea chars per
    simp [finalize_loop]
  | cons j rest ih =>
    intro ts lea chars per
    obtain ⟨hgw, hparse, bs, hbody⟩ := hgood j
    have hreq := hgw (finalize_request cfg outlines total j
        (if j = 1 then none else some ts) lea chars) rfl
    simp only [finalize_loop, hreq, hparse, hbody, asString]
    refine ⟨(ih _ _ _ _).1, ?_⟩
    rw [(ih _ _ _ _).2]
    simp

/-- C9: idempotence of normalization — for every structurally valid
record x, decoding its JSON encoding returns x, with the direct decode
succeeding (so the repair pass is never applied) and `safe_json_parse`
returning exactly x. -/
theorem C9_normalization_roundtrip (x : JValue) :
    jsonDecode (encodeVal x) = some x ∧
    safe_json_parse (encodeVal x) = .ok x := by
  have h := jsonDecode_encodeVal x
  exact ⟨h, by simp [safe_json_parse, h]⟩

/-- C4: `safe_json_parse` first attempts direct decoding; on failure it
applies exactly one backslash-repair pass and retries; if the repaired
text still fails it fails carrying the first 500 characters of the
failing (repaired) text.  The model is a total function, so no other
outcome exists.  Concretely: a stray unescaped backslash inside an
otherwise valid string value fails the direct decode but parses after
the repair pass, and an unbalanced object fails in both passes. -/
theorem C4_parse_repair_policy :
    (∀ s v, jsonDecode s = some v → safe_json_parse s = .ok v) ∧
    (∀ s v, jsonDecode s = none →
      jsonDecode (repairBackslashes s) = some v →
        safe_json_parse s = .ok v) ∧
    (∀ s, jsonDecode s = none → jsonDecode (repairBackslashes s) = none →
        safe_json_parse s = .error ((repairBackslashes s).take 500)) ∧
    jsonDecode strayBackslashText = none ∧
    safe_json_parse strayBackslashText = .ok (.obj [("a", .str "x\\yz")]) ∧
    safe_json_parse unbalancedText
      = .error ((repairBackslashes unbalancedText).take 500) := by
  refine ⟨?_, ?_, ?_, rfl, rfl, rfl⟩
  · intro s v h
    simp [safe_json_parse, h]
  · intro s v h1 h2
    simp [safe_json_parse, h1, h2]
  · intro s h1 h2
    simp [safe_json_parse, h1, h2]

/-- C4 witness: the policy instantiated at concrete inputs — a directly
valid document, and the stray-backslash document repaired by the one
repair pass. -/
theorem C4_witness :
    safe_json_parse ("7".data) = .ok (.num 7) ∧
    safe_json_parse strayBackslashText = .ok (.obj [("a", .str "x\\yz")]) :=
  ⟨C4_parse_repair_policy.1 ("7".data) (.num 7) rfl,
   C4_parse_repair_policy.2.1 strayBackslashText
     (.obj [("a", .str "x\\yz")]) rfl rfl⟩

/-- C5: counterexample — a successfully parsed but partial model
response is returned unvalidated by `generate_outlines`, so its key set
is NOT the full index set `"1".."N"` (here N = 2). -/
theorem C5_counterexample :
    objKeys (generate_outlines 2 partialOutlineText) = ["1"] ∧
    (["1"] : List String) ≠ ["1", "2"] := ⟨rfl, by decide⟩

/-- C5 (amended): `generate_outlines` never fails past the parse step:
when parsing (after brace extraction) fails it returns the fallback map,
whose keys are exactly the stringified indices 1..N (every value the
fixed placeholder, per `fallback_outlines`); when parsing succeeds the
parsed value is returned as-is, unvalidated. -/
theorem C5_outline_fallback (total : Nat) (r : List Char) :
    ((∀ v, safe_json_parse ((extractBraces r).getD r) ≠ .ok v) →
      generate_outlines total r = fallback_outlines total) ∧
    objKeys (fallback_outlines total) = (List.range' 1 total).map natStr ∧
    (∀ v, safe_json_parse ((extractBraces r).getD r) = .ok v →
      generate_outlines total r = v) := by
  refine ⟨?_, ?_, ?_⟩
  · intro hfail
    cases h : safe_json_parse ((extractBraces r).getD r) with
    | ok v => exact absurd h (hfail v)
    | error t =>
      show (match safe_json_parse ((extractBraces r).getD r) with
        | Except.ok v => v
        | Except.error _ => fallback_outlines total) = fallback_outlines total
      rw [h]
  · simp [fallback_outlines, objKeys]
  · intro v h
    show (match safe_json_parse ((extractBraces r).getD r) with
      | Except.ok v => v
      | Except.error _ => fallback_outlines total) = v
    rw [h]

/-- C5 witness: a response with no JSON object yields the fallback map
with keys `"1" "2" "3"`. -/
theorem C5_witness :
    generate_outlines 3 garbageOutlineText = fallback_outlines 3 ∧
    objKeys (fallback_outlines 3) = (List.range' 1 3).map natStr ∧
    objKeys (fallback_outlines 3) = ["1", "2", "3"] := by
  refine ⟨(C5_outline_fallback 3 garbageOutlineText).1 ?_,
    (C5_outline_fallback 3 garbageOutlineText).2.1, rfl⟩
  intro v h
  have he : safe_json_parse ((extractBraces garbageOutlineText).getD
      garbageOutlineText)
      = .error ((repairBackslashes garbageOutlineText).take 500) := rfl
  rw [he] at h
  exact Except.noConfusion h

/-- C7: `flow_maintainer` is a no-op when the modified episode is the
last (or beyond); otherwise it rewrites exactly the entries
modified+1..total — in strictly increasing order, so that each step's
prompt carries all outlines 1..j-1 as already revised by this same pass
(the final values), with the step's current text being the original
entry — and never alters entries 1..modified. -/
theorem C7_forward_flow (orc : FlowRequest → List Char)
    (total modified : Nat) (outlines : Nat → List Char) :
    (total ≤ modified →
      flow_maintainer orc total modified outlines = outlines) ∧
    (modified < total →
      (∀ j, j ≤ modified ∨ total < j →
        flow_maintainer orc total modified outlines j = outlines j) ∧
      (∀ j, modified < j → j ≤ total →
        flow_maintainer orc total modified outlines j =
          orc { ep := j
                previous_outlines := (List.range' 1 (j - 1)).map
                  (fun i => (i, flow_maintainer orc total modified outlines i))
                current := outlines j
                modified_episode := modified
                total_episodes := total })) := by
  constructor
  · intro h
    simp only [flow_maintainer]
    rw [if_pos (by omega)]
  · intro h
    have hif : flow_maintainer orc total modified outlines
        = flowLoop orc modified total
            (List.range' (modified + 1) (total - modified)) outlines := by
      simp only [flow_maintainer]
      rw [if_neg (by omega)]
    obtain ⟨P1, P2⟩ := flowLoop_spec orc modified total (total - modified)
      (modified + 1) outlines
    constructor
    · intro j hj
      rw [hif]
      exact P1 j (by omega)
    · intro j h1 h2
      rw [hif]
      exact P2 j (by omega) (by omega)

/-- C7 witness: the spec's forward-propagation example — modifying
episode 2 of a 5-episode outline map leaves entries 1 and 2 unchanged
and rewrites entry 3 from a prompt carrying the final values of entries
1 and 2. -/
theorem C7_witness :
    flow_maintainer orcFlow 5 2 outlines5 1 = outlines5 1 ∧
    flow_maintainer orcFlow 5 2 outlines5 2 = outlines5 2 ∧
    flow_maintainer orcFlow 5 2 outlines5 3 =
      orcFlow { ep := 3
                previous_outlines := (List.range' 1 2).map
                  (fun i => (i, flow_maintainer orcFlow 5 2 outlines5 i))
                current := outlines5 3
                modified_episode := 2
                total_episodes := 5 } :=
  ⟨((C7_forward_flow orcFlow 5 2 outlines5).2 (by omega)).1 1 (Or.inl (by omega)),
   ((C7_forward_flow orcFlow 5 2 outlines5).2 (by omega)).1 2 (Or.inl (by omega)),
   ((C7_forward_flow orcFlow 5 2 outlines5).2 (by omega)).2 3 (by omega) (by omega)⟩

/-- C8: `improve_outline` overwrites exactly the entry for the revised
episode with the oracle's response (also returned), and every other
entry keeps its previous value — the single-entry overwrite is the only
change to the map. -/
theorem C8_point_revision (orc : ImproveRequest → List Char)
    (outlines : Nat → List Char) (k : Nat) (feedback : List Char) :
    (improve_outline orc outlines k feedback).2 k
      = orc { episode_num := k
              previous_outlines := (List.range' 1 (k - 1)).map
                (fun ep => (ep, outlines ep))
              original := outlines k
              feedback := feedback } ∧
    (∀ j, j ≠ k → (improve_outline orc outlines k feedback).2 j
      = outlines j) ∧
    (improve_outline orc outlines k feedback).1
      = orc { episode_num := k
              previous_outlines := (List.range' 1 (k - 1)).map
                (fun ep => (ep, outlines ep))
              original := outlines k
              feedback := feedback } := by
  refine ⟨by simp [improve_outline], ?_, by simp [improve_outline]⟩
  intro j hj
  simp [improve_outline, hj]

/-- C8 witness: the spec's scenario B — improving episode 3 of a 5-part
outline map overwrites only entry 3; entries 1, 2, 4, 5 are identical
to their pre-call values. -/
theorem C8_witness :
    (improve_outline orcImprove outlines5 3 ("f".data)).2 1 = outlines5 1 ∧
    (improve_outline orcImprove outlines5 3 ("f".data)).2 2 = outlines5 2 ∧
    (improve_outline orcImprove outlines5 3 ("f".data)).2 4 = outlines5 4 ∧
    (improve_outline orcImprove outlines5 3 ("f".data)).2 5 = outlines5 5 ∧
    (improve_outline orcImprove outlines5 3 ("f".data)).2 3
      = orcImprove { episode_num := 3
                     previous_outlines := (List.range' 1 2).map
                       (fun ep => (ep, outlines5 ep))
                     original := outlines5 3
                     feedback := "f".data } :=
  ⟨(C8_point_revision orcImprove outlines5 3 ("f".data)).2.1 1 (by decide),
   (C8_point_revision orcImprove outlines5 3 ("f".data)).2.1 2 (by decide),
   (C8_point_revision orcImprove outlines5 3 ("f".data)).2.1 4 (by decide),
   (C8_point_revision orcImprove outlines5 3 ("f".data)).2.1 5 (by decide),
   (C8_point_revision orcImprove outlines5 3 ("f".data)).1⟩

/-- C1: counterexample — in `create_story` the merge step does NOT pass
the prior running summary to the summarizer: with a summarizer oracle
that reveals whether it was given context, episode 2's merge appends a
no-context summary; the value the claim prescribes (summarizer output
with the prior summary as explicit context, with or without
concatenation) differs. -/
theorem C1_counterexample :
    (create_story gwAllOk orcW cfgW charsW 2).total_summary
        = "NOCTX".data ++ ('\n' :: "NOCTX".data) ∧
    summarize_with_openai orcW ("B".data) (some ("NOCTX".data))
        = "CTX".data ∧
    (create_story gwAllOk orcW cfgW charsW 2).total_summary
        ≠ summarize_with_openai orcW ("B".data) (some ("NOCTX".data)) ∧
    (create_story gwAllOk orcW cfgW charsW 2).total_summary
        ≠ "NOCTX".data ++ ('\n' :: summarize_with_openai orcW ("B".data)
            (some ("NOCTX".data))) :=
  ⟨rfl, rfl, by decide, by decide⟩

/-- C1 (amended): in every fully successful `create_story` run, episode
1's running summary is the summarizer's no-context summary of its body
alone, and each later episode appends a newline plus an independent
no-context summary of that episode's body onto the prior running
summary — plain string concatenation; the summarizer is never passed
the prior running summary as context (see `runSummary`). -/
theorem C1_running_summary
    (gw : EpisodeRequest → Except (List Char) (List Char))
    (orc : SummRequest → List Char) (cfg : StoryCfg) (chars0 : JValue)
    (n : Nat) (R : Nat → JValue) (hn : 1 ≤ n)
    (hgood : ∀ j, 1 ≤ j → j ≤ n →
      (∀ req : EpisodeRequest, req.episode_number = j →
        generate_episode gw req = .ok (R j)) ∧ WfRec (R j)) :
    (create_story gw orc cfg chars0 n).total_summary
      = runSummary orc R (List.range' 2 (n - 1))
          (orc { context := none, text := (bodyOf (R 1)).take 3000 }) := by
  rw [create_story_ok gw orc cfg chars0 n R hgood hn]
  rfl

/-- C1 witness: the amended statement at a concrete two-episode run. -/
theorem C1_witness :
    (create_story gwAllOk orcW cfgW charsW 2).total_summary
      = runSummary orcW (fun _ => epRecord) (List.range' 2 1)
          (orcW { context := none, text := (bodyOf epRecord).take 3000 }) :=
  C1_running_summary gwAllOk orcW cfgW charsW 2 (fun _ => epRecord)
    (by omega)
    (fun j h1 h2 => ⟨fun req hreq => rfl, wf_epRecord⟩)

/-- C2: counterexample — the merge nulls the ending anchor when
`ended_at` is absent: with the same gateway, a 1-episode run leaves the
anchor at `some "E"` (the value before episode 2), yet the 2-episode
run, whose episode-2 record lacks the field, ends with the anchor
`none` instead of the retained prior value. -/
theorem C2_counterexample :
    (create_story gwNoEnd2 orcW cfgW charsW 1).last_ended_at
        = some (.str "E") ∧
    (create_story gwNoEnd2 orcW cfgW charsW 2).last_ended_at = none :=
  ⟨rfl, rfl⟩

/-- C2 (amended): after every fully successful `create_story` run the
continuity anchor equals the LAST episode record's `ended_at` field —
in particular `none` when that field is absent — regardless of the
anchor's earlier values (each merge replaces it wholesale with
`story.get("ended_at", None)`). -/
theorem C2_ended_at_anchor
    (gw : EpisodeRequest → Except (List Char) (List Char))
    (orc : SummRequest → List Char) (cfg : StoryCfg) (chars0 : JValue)
    (n : Nat) (R : Nat → JValue) (hn : 1 ≤ n)
    (hgood : ∀ j, 1 ≤ j → j ≤ n →
      (∀ req : EpisodeRequest, req.episode_number = j →
        generate_episode gw req = .ok (R j)) ∧ WfRec (R j)) :
    (create_story gw orc cfg chars0 n).last_ended_at
      = (R n).getField endedAtKey := by
  rw [create_story_ok gw orc cfg chars0 n R hgood hn]
  show runLea R (List.range' 2 (n - 1)) ((R 1).getField endedAtKey)
      = (R n).getField endedAtKey
  match n, hn with
  | 1, _ => rfl
  | (m + 2), _ =>
    have h : m + 2 - 1 = m + 1 := by omega
    rw [h, runLea_range' R m 2]
    have h2 : 2 + m = m + 2 := by omega
    rw [h2]

/-- C2 witness: the amended statement at a concrete two-episode run
whose final record lacks `ended_at` (the anchor is nulled). -/
theorem C2_witness :
    (create_story gwNoEnd2 orcW cfgW charsW 2).last_ended_at
      = (recNoEnd2 2).getField endedAtKey :=
  C2_ended_at_anchor gwNoEnd2 orcW cfgW charsW 2 recNoEnd2 (by omega)
    (fun j h1 h2 => by
      interval_cases j
      · exact ⟨fun req hreq => by
          simp only [generate_episode, gwNoEnd2, hreq]
          norm_num [recNoEnd2, parse_epRecordText], by
          simp only [recNoEnd2]
          norm_num
          exact wf_epRecord⟩
      · exact ⟨fun req hreq => by
          simp only [generate_episode, gwNoEnd2, hreq]
          norm_num [recNoEnd2, parse_epRecordNoEndText], by
          simp only [recNoEnd2]
          norm_num
          exact wf_epRecordNoEnd⟩)

/-- C3: the outline-driven episode-generation mode exists —
`finalize_story` (modelled from the spec, its definition being missing
from the sources) expands finished outlines into full episode records,
and the prompt bundle it issues for episode k includes the outline text
for k. -/
theorem C3_outline_mode
    (gw : OutlineEpisodeRequest → Except (List Char) (List Char))
    (orc : SummRequest → List Char) (cfg : StoryCfg)
    (outlines : Nat → List Char) (total : Nat)
    (T : Nat → List Char) (R : Nat → JValue)
    (hgood : ∀ j, (∀ req : OutlineEpisodeRequest, req.episode_number = j →
        gw req = .ok (T j)) ∧ safe_json_parse (T j) = .ok (R j) ∧
        (∃ s, (R j).getField bodyKey = some (.str s))) :
    (∀ ep ts lea chars,
      (finalize_request cfg outlines total ep ts lea chars).outline
        = outlines ep) ∧
    (finalize_story gw orc cfg outlines total).err = none ∧
    (finalize_story gw orc cfg outlines total).persisted.map Prod.fst
      = List.range' 1 total := by
  refine ⟨fun ep ts lea chars => rfl, ?_, ?_⟩
  · exact (finalize_loop_ok gw orc cfg outlines total T R hgood
      (List.range' 1 total) [] none none []).1
  · have h := (finalize_loop_ok gw orc cfg outlines total T R hgood
      (List.range' 1 total) [] none none []).2
    simpa using h

/-- C3 witness: a concrete three-episode outline-driven run persists
records for exactly indices 1..3, and each request carries its
episode's outline. -/
theorem C3_witness :
    (∀ ep ts lea chars,
      (finalize_request cfgW outlines5 3 ep ts lea chars).outline
        = outlines5 ep) ∧
    (finalize_story gwOutlineOk orcW cfgW outlines5 3).err = none ∧
    (finalize_story gwOutlineOk orcW cfgW outlines5 3).persisted.map Prod.fst
      = List.range' 1 3 :=
  C3_outline_mode gwOutlineOk orcW cfgW outlines5 3
    (fun _ => epRecordText) (fun _ => epRecord)
    (fun j => ⟨fun req hreq => rfl, parse_epRecordText, ⟨"B", rfl⟩⟩)

/-- C6: a gateway or normalizer failure at episode index k is fatal —
`create_story` aborts with that error, writes nothing for index k, and
leaves exactly the episode records 1..k-1 persisted. -/
theorem C6_abort_semantics
    (gw : EpisodeRequest → Except (List Char) (List Char))
    (orc : SummRequest → List Char) (cfg : StoryCfg) (chars0 : JValue)
    (n : Nat) (R : Nat → JValue) (k : Nat) (e : RunError)
    (h1 : 1 ≤ k) (hkn : k ≤ n)
    (hfail : ∀ req : EpisodeRequest, req.episode_number = k →
      generate_episode gw req = .error e)
    (hgood : ∀ j, j < k →
      (∀ req : EpisodeRequest, req.episode_number = j →
        generate_episode gw req = .ok (R j)) ∧ WfRec (R j)) :
    (create_story gw orc cfg chars0 n).err = some e ∧
    (create_story gw orc cfg chars0 n).persisted.map Prod.fst
      = List.range' 1 (k - 1) := by
  by_cases hk1 : k = 1
  · subst hk1
    have hgen := hfail
        { episode_number := 1
          total_episodes := n
          summary_context := none
          previous_characters := none
          required_characters := some chars0
          ended_at := none
          cfg := cfg } rfl
    simp [create_story, hgen]
  · have hj1 := hgood 1 (by omega)
    have hgen := hj1.1
        { episode_number := 1
          total_episodes := n
          summary_context := none
          previous_characters := none
          required_characters := some chars0
          ended_at := none
          cfg := cfg } rfl
    obtain ⟨⟨bs, hbody⟩, hcs⟩ := hj1.2
    simp only [create_story, hgen, hbody, asString]
    have hst2 : (((R 1).setField summaryKey
        (.str (String.mk (summarize_with_openai orc bs.data none)))).getField
          charsKey).isSome = true := by
      rw [getField_setField_ne _ _ _ _ (by decide)]
      exact hcs
    have hres := create_story_loop_fail gw orc cfg n R k e hfail hgood
      (n - 1) 2
      ((R 1).setField summaryKey
        (.str (String.mk (summarize_with_openai orc bs.data none))))
      (summarize_with_openai orc bs.data none)
      ((R 1).getField endedAtKey)
      [(1, (R 1).setField summaryKey
        (.str (String.mk (summarize_with_openai orc bs.data none))))]
      (by omega) (by omega) hst2
    refine ⟨hres.1, ?_⟩
    rw [hres.2]
    have hk : k - 1 = (k - 2) + 1 := by omega
    rw [hk, List.range'_succ 1 (k - 2) 1]
    simp

/-- C6 witness: the spec's scenario C — a transport failure at episode
3 of a 5-episode run aborts with that error, leaving exactly the
records for indices 1 and 2 and none for index 3. -/
theorem C6_witness :
    (create_story gwFail3 orcW cfgW charsW 5).err
        = some (.transport ("boom".data)) ∧
    (create_story gwFail3 orcW cfgW charsW 5).persisted.map Prod.fst
      = List.range' 1 2 ∧
    List.range' 1 2 = [1, 2] := by
  have h := C6_abort_semantics gwFail3 orcW cfgW charsW 5
    (fun _ => epRecord) 3 (.transport ("boom".data)) (by omega) (by omega)
    (fun req hreq => by
      simp only [generate_episode, gwFail3, hreq]
      norm_num)
    (fun j hj => ⟨fun req hreq => by
        have hne : req.episode_number ≠ 3 := by omega
        simp only [generate_episode, gwFail3]
        rw [if_neg hne]
        exact congrArg
          (fun r => match r with
            | Except.ok v => Except.ok v
            | Except.error t => Except.error (RunError.malformed t))
          parse_epRecordText,
      wf_epRecord⟩)
  exact ⟨h.1, h.2, rfl⟩

/-- C10: a parsed record lacking `current_characters` at episode
k < N makes the next iteration's `story["current_characters"]` access
fail (a KeyError) before any gateway call for episode k+1, aborting the
run with episodes 1..k persisted; by contrast `ended_at` is read with
`story.get("ended_at", None)`, so records without it never abort a run
(second conjunct: a run whose records all merely have `body` and
`current_characters` completes and persists 1..N). -/
theorem C10_missing_field_semantics
    (gw : EpisodeRequest → Except (List Char) (List Char))
    (orc : SummRequest → List Char) (cfg : StoryCfg) (chars0 : JValue)
    (n : Nat) (R : Nat → JValue) (k : Nat) :
    ((1 ≤ k) → (k < n) →
      (∀ j, j ≤ k → ∀ req : EpisodeRequest, req.episode_number = j →
        generate_episode gw req = .ok (R j)) →
      (∀ j, j < k → WfRec (R j)) →
      (∃ s, (R k).getField bodyKey = some (.str s)) →
      (R k).getField charsKey = none →
      (create_story gw orc cfg chars0 n).err
          = some (.keyError charsKey) ∧
      (create_story gw orc cfg chars0 n).persisted.map Prod.fst
        = List.range' 1 k) ∧
    ((1 ≤ n) →
      (∀ j, 1 ≤ j → j ≤ n →
        (∀ req : EpisodeRequest, req.episode_number = j →
          generate_episode gw req = .ok (R j)) ∧ WfRec (R j)) →
      (create_story gw orc cfg chars0 n).err = none ∧
      (create_story gw orc cfg chars0 n).persisted.map Prod.fst
        = List.range' 1 n) := by
  constructor
  · intro hk1 hkn hgoodparse hwf hbody hnochars
    have hgen := hgoodparse 1 (by omega)
        { episode_number := 1
          total_episodes := n
          summary_context := none
          previous_characters := none
          required_characters := some chars0
          ended_at := none
          cfg := cfg } rfl
    obtain ⟨bs, hbody1⟩ : ∃ s, (R 1).getField bodyKey = some (.str s) := by
      by_cases hker : k = 1
      · exact hker ▸ hbody
      · exact (hwf 1 (by omega)).1
    simp only [create_story, hgen, hbody1, asString]
    have hres := create_story_loop_keyerr gw orc cfg n R k hgoodparse hwf
      hbody hnochars
      (n - 1) 2
      ((R 1).setField summaryKey
        (.str (String.mk (summarize_with_openai orc bs.data none))))
      (summarize_with_openai orc bs.data none)
      ((R 1).getField endedAtKey)
      [(1, (R 1).setField summaryKey
        (.str (String.mk (summarize_with_openai orc bs.data none))))]
      (by omega) (by omega)
      (fun hle => by
        rw [getField_setField_ne _ _ _ _ (by decide)]
        exact (hwf 1 (by omega)).2)
      (fun heq => by
        rw [getField_setField_ne _ _ _ _ (by decide)]
        have hke : k = 1 := by omega
        exact hke ▸ hnochars)
    refine ⟨hres.1, ?_⟩
    rw [hres.2]
    obtain ⟨m, rfl⟩ : ∃ m, k = m + 1 := ⟨k - 1, by omega⟩
    have hk2 : m + 1 + 1 - 2 = m := by omega
    rw [hk2, List.range'_succ 1 m 1]
    simp
  · intro hn hgood
    rw [create_story_ok gw orc cfg chars0 n R hgood hn]
    refine ⟨rfl, ?_⟩
    show (1 : Nat) :: (runRecords orc R (List.range' 2 (n - 1))
        (summarize_with_openai orc (bodyOf (R 1)) none)).map Prod.fst
      = List.range' 1 n
    rw [runRecords_map_fst]
    obtain ⟨m, rfl⟩ : ∃ m, n = m + 1 := ⟨n - 1, by omega⟩
    rw [List.range'_succ 1 m 1]
    norm_num

/-- C10 witness: with a record for episode 2 of a 3-episode run lacking
`current_characters`, the run aborts with a KeyError and persists
exactly episodes 1 and 2; and a 2-episode run whose records lack
`ended_at` entirely still completes, persisting episodes 1 and 2. -/
theorem C10_witness :
    ((create_story gwNoChars2 orcW cfgW charsW 3).err
        = some (.keyError charsKey) ∧
      (create_story gwNoChars2 orcW cfgW charsW 3).persisted.map Prod.fst
        = List.range' 1 2) ∧
    ((create_story (fun _ => .ok epRecordNoEndText) orcW cfgW charsW 2).err
        = none ∧
      (create_story (fun _ => .ok epRecordNoEndText) orcW cfgW
          charsW 2).persisted.map Prod.fst = List.range' 1 2) := by
  constructor
  · exact (C10_missing_field_semantics gwNoChars2 orcW cfgW charsW 3
      recNoChars2 2).1 (by omega) (by omega)
      (fun j hj req hreq => by
        simp only [generate_episode, gwNoChars2, hreq, recNoChars2]
        by_cases hj2 : j = 2
        · subst hj2
          norm_num [parse_epRecordNoCharsText]
        · rw [if_neg hj2, if_neg hj2]
          exact congrArg
            (fun r => match r with
              | Except.ok v => Except.ok v
              | Except.error t => Except.error (RunError.malformed t))
            parse_epRecordText)
      (fun j hj => by
        have hj2 : j ≠ 2 := by omega
        simp only [recNoChars2]
        rw [if_neg hj2]
        exact wf_epRecord)
      (by
        simp only [recNoChars2]
        norm_num
        exact ⟨"B3", rfl⟩)
      (by
        simp only [recNoChars2]
        norm_num
        rfl)
  · exact (C10_missing_field_semantics (fun _ => .ok epRecordNoEndText)
      orcW cfgW charsW 2 (fun _ => epRecordNoEnd) 0).2 (by omega)
      (fun j h1 h2 => ⟨fun req hreq => rfl, wf_epRecordNoEnd⟩)
